import Mathlib

/-!
Verification of the sprite-nyc Quadrant Grid Generation Engine.

Shallow embedding of:
  * `src/sprite_nyc/e2e_generation/infill_template.py`
      (QuadrantState, QuadrantPosition, validate_seam_rules,
       validate_generation_config, _best_corner_for_single,
       _compute_2x2_layout, create_template_image,
       extract_generated_quadrants)
  * `src/sprite_nyc/e2e_generation/auto_generate.py` (spiral_order, main loop)
  * `src/sprite_nyc/batch_generate.py` (_spiral_order)
  * `src/sprite_nyc/e2e_generation/make_strip_plan.py` (make_strip_plan)
  * `src/sprite_nyc/e2e_generation/generate_tiles_omni.py` (_run_from_plan)

PIL images are modelled as a syntax tree of the image operations the code
performs (`Image.new`, `resize`, `crop`, `paste`, `ImageDraw.rectangle`),
with width/height computed structurally; pixel contents beyond the
construction tree play no role in any claim.  Human-readable violation
strings are modelled as a closed inductive type, one constructor per
`errors.append` site, carrying the interpolated data.
-/

set_option maxHeartbeats 1000000

/-- RGBA color, e.g. `(255, 0, 0, 255)`. -/
abbrev Color := Nat × Nat × Nat × Nat

/-- A PIL image, modelled as the tree of operations that built it.
`srcImg` stands for an externally supplied bitmap (a render from disk,
or the generation service's result) with an opaque tag and a size. -/
inductive Img where
  | srcImg (tag : Nat) (w h : Nat)
  | fill (w h : Nat) (c : Color)
  | resize (i : Img) (w h : Nat)
  | crop (i : Img) (l t r b : Nat)
  | paste (dst src : Img) (x y : Nat)
  | rectOutline (i : Img) (x0 y0 x1 y1 : Nat) (c : Color)
deriving DecidableEq

/-- Width in pixels (PIL: `.size[0]`; `crop (l,t,r,b)` has width `r-l`,
`paste` and outline drawing keep the base image's size). -/
def Img.width : Img → Nat
  | .srcImg _ w _ => w
  | .fill w _ _ => w
  | .resize _ w _ => w
  | .crop _ l _ r _ => r - l
  | .paste d _ _ _ => d.width
  | .rectOutline i _ _ _ _ _ => i.width

/-- Height in pixels (PIL: `.size[1]`). -/
def Img.height : Img → Nat
  | .srcImg _ _ h => h
  | .fill _ h _ => h
  | .resize _ _ h => h
  | .crop _ _ t _ b => b - t
  | .paste d _ _ _ => d.height
  | .rectOutline i _ _ _ _ _ => i.height

/-- `QuadrantState` enum from infill_template.py. -/
inductive QuadrantState where
  | EMPTY
  | GENERATED
  | SELECTED
deriving DecidableEq

/-- `QuadrantPosition` dataclass from infill_template.py. -/
structure QuadrantPosition where
  x : Int
  y : Int
  state : QuadrantState := .EMPTY
  image : Option Img := none
deriving DecidableEq

/-- `QuadrantPosition.key` property. -/
def QuadrantPosition.key (q : QuadrantPosition) : Int × Int := (q.x, q.y)

/-- `QuadrantPosition.cardinal_neighbor_keys().values()`, in the dict's
insertion order: top, bottom, left, right. -/
def QuadrantPosition.cardinal_neighbor_keys (q : QuadrantPosition) :
    List (Int × Int) :=
  [(q.x, q.y - 1), (q.x, q.y + 1), (q.x - 1, q.y), (q.x + 1, q.y)]

/-- The grid `dict[tuple[int,int], QuadrantPosition]`, modelled as the list
of its values; the dict invariant (entry stored under its own `.key`) is
built in, and `grid.get(k)` is lookup by `.key`. -/
def Grid := List QuadrantPosition

/-- `grid.get((x, y))`. -/
def Grid.get (g : Grid) (k : Int × Int) : Option QuadrantPosition :=
  List.find? (fun q => decide (q.key = k)) g

/-- `nb = grid.get(k); nb and nb.state == QuadrantState.GENERATED`. -/
def Grid.isGeneratedAt (g : Grid) (k : Int × Int) : Bool :=
  match g.get k with
  | some nb => nb.state = QuadrantState.GENERATED
  | none => false

/-- Python `min(x :: xs)`. -/
def list_min (x : Int) (xs : List Int) : Int := xs.foldl min x

/-- Python `max(x :: xs)`. -/
def list_max (x : Int) (xs : List Int) : Int := xs.foldl max x

/-- One validator error message, one constructor per `errors.append` site
in infill_template.py, carrying the data interpolated into the string. -/
inductive Violation where
  | bboxTooLarge (w h : Int)        -- "Selection bounding box w×h exceeds max 2×2"
  | notRectangular                  -- "Selection must be rectangular ..."
  | seam1x1AllSides                 -- "1×1 selection has generated neighbors on all 4 sides ..."
  | seam1x2LeftRight                -- "1×2 selection ... both left and right ..."
  | seam2x1TopBottom                -- "2×1 selection ... both top and bottom ..."
  | seam2x2Side (side : Nat)        -- "2×2 selection has generated neighbor on {side} ..."
  | noSelection                     -- "No quadrants selected"
  | alreadyGenerated (x y : Int)    -- "Quadrant (x, y) is already generated"
  | notConnected                    -- "Selected quadrants are not connected"
  | noGeneratedNeighbor             -- "No selected quadrant has a generated neighbor"
deriving DecidableEq

/-- The four bounding-box sides, in the tuple order
`("top", "bottom", "left", "right")` used by the source. -/
inductive Side where
  | top
  | bottom
  | left
  | right
deriving DecidableEq

/-- Index of a side in the source's `("top","bottom","left","right")`
tuple, used only as the payload of a `seam2x2Side` violation. -/
def Side.idx : Side → Nat
  | .top => 0
  | .bottom => 1
  | .left => 2
  | .right => 3

/-- Python `range(a, b)` over integers, ascending. -/
def intRange (a b : Int) : List Int :=
  (List.range (b - a).toNat).map (fun (i : Nat) => a + (i : Int))

/-- `_has_generated_on_side(grid, side, bbox)` from infill_template.py:
whether ANY cell immediately outside the given side of the (inclusive)
bounding box `(min_x, min_y, max_x, max_y)` is GENERATED. -/
def has_generated_on_side (grid : Grid) (side : Side)
    (bbox : Int × Int × Int × Int) : Bool :=
  let (min_x, min_y, max_x, max_y) := bbox
  match side with
  | .top => (intRange min_x (max_x + 1)).any
      (fun x => grid.isGeneratedAt (x, min_y - 1))
  | .bottom => (intRange min_x (max_x + 1)).any
      (fun x => grid.isGeneratedAt (x, max_y + 1))
  | .left => (intRange min_y (max_y + 1)).any
      (fun y => grid.isGeneratedAt (min_x - 1, y))
  | .right => (intRange min_y (max_y + 1)).any
      (fun y => grid.isGeneratedAt (max_x + 1, y))

/-- `validate_seam_rules(selected, grid)` from infill_template.py. -/
def validate_seam_rules (selected : List QuadrantPosition) (grid : Grid) :
    List Violation :=
  match selected with
  | [] => []
  | q0 :: rest =>
    let min_x := list_min q0.x (rest.map (·.x))
    let max_x := list_max q0.x (rest.map (·.x))
    let min_y := list_min q0.y (rest.map (·.y))
    let max_y := list_max q0.y (rest.map (·.y))
    let w := max_x - min_x + 1
    let h := max_y - min_y + 1
    if w > 2 ∨ h > 2 then [.bboxTooLarge w h]
    else if ((q0 :: rest).length : Int) ≠ w * h then [.notRectangular]
    else
      let bbox := (min_x, min_y, max_x, max_y)
      if w = 1 ∧ h = 1 then
        let gen_sides :=
          ([Side.top, Side.bottom, Side.left, Side.right].filter
            (fun s => has_generated_on_side grid s bbox)).length
        if gen_sides ≥ 4 then [.seam1x1AllSides] else []
      else if w = 1 ∧ h = 2 then
        if has_generated_on_side grid .left bbox ∧
            has_generated_on_side grid .right bbox then
          [.seam1x2LeftRight]
        else []
      else if w = 2 ∧ h = 1 then
        if has_generated_on_side grid .top bbox ∧
            has_generated_on_side grid .bottom bbox then
          [.seam2x1TopBottom]
        else []
      else if w = 2 ∧ h = 2 then
        [Side.top, Side.bottom, Side.left, Side.right].filterMap
          (fun s =>
            if has_generated_on_side grid s bbox then
              some (.seam2x2Side s.idx)
            else none)
      else []

/-- `grid.values()`. -/
def Grid.values (g : Grid) : List QuadrantPosition := g

/-- `any(q.state == QuadrantState.GENERATED for q in grid.values())`. -/
def Grid.hasAnyGenerated (g : Grid) : Bool :=
  g.values.any (fun q => decide (q.state = QuadrantState.GENERATED))

/-- The four cardinal step offsets `[(-1, 0), (1, 0), (0, -1), (0, 1)]`
used by the connectivity flood fill. -/
def cardinalDeltas : List (Int × Int) := [(-1, 0), (1, 0), (0, -1), (0, 1)]

/-- The `while stack:` flood-fill loop of rule 1 in
`validate_generation_config`, with an explicit fuel argument standing for
the loop's (finite) iteration count.  Each iteration pops one entry and at
most `1 + 4·|keys|` entries are ever pushed, so the fuel supplied at the
call site (`1 + 5 · |selection|`) strictly dominates the number of
iterations the Python loop performs.  The stack is a list whose head is
the top (Python appends to and pops from the end of its list). -/
def floodFill (keys : Finset (Int × Int)) :
    Nat → Finset (Int × Int) → List (Int × Int) → Finset (Int × Int)
  | 0, visited, _ => visited
  | _ + 1, visited, [] => visited
  | fuel + 1, visited, current :: stack =>
    if current ∈ visited then floodFill keys fuel visited stack
    else
      let visited' := insert current visited
      let stack' := cardinalDeltas.foldl
        (fun s d =>
          let nb := (current.1 + d.1, current.2 + d.2)
          if nb ∈ keys ∧ nb ∉ visited' then nb :: s else s)
        stack
      floodFill keys fuel visited' stack'

/-- `validate_generation_config(selected, grid)` from infill_template.py:
rule 3 (no re-generation), rule 1 (connectivity), rule 2 (neighbor
context), then the seam rules, all collected in that order. -/
def validate_generation_config (selected : List QuadrantPosition)
    (grid : Grid) : List Violation :=
  match selected with
  | [] => [.noSelection]
  | q0 :: rest =>
    let sel := q0 :: rest
    let regenErrors := sel.filterMap (fun q =>
      if q.state = QuadrantState.GENERATED then
        some (Violation.alreadyGenerated q.x q.y)
      else none)
    let connErrors :=
      if sel.length > 1 then
        let selected_keys := (sel.map QuadrantPosition.key).toFinset
        let visited := floodFill selected_keys (1 + 5 * sel.length) ∅ [q0.key]
        if visited ≠ selected_keys then [Violation.notConnected] else []
      else []
    let nbErrors :=
      if Grid.hasAnyGenerated grid then
        let has_generated_neighbor := sel.any (fun q =>
          q.cardinal_neighbor_keys.any (fun nb => grid.isGeneratedAt nb))
        if has_generated_neighbor then [] else [Violation.noGeneratedNeighbor]
      else []
    regenErrors ++ connErrors ++ nbErrors ++ validate_seam_rules sel grid

-- ── Layout engine & template composer ─────────────────────────────────

/-- Module constant `BORDER_COLOR = (255, 0, 0, 255)`. -/
def BORDER_COLOR : Color := (255, 0, 0, 255)

/-- Module constant `BORDER_WIDTH = 1`. -/
def BORDER_WIDTH : Nat := 1

/-- Module constant `TILE_SIZE = 1024`. -/
def TILE_SIZE : Nat := 1024

/-- Module constant `CELL_SIZE = 512`. -/
def CELL_SIZE : Nat := 512

/-- The candidate corners of `_best_corner_for_single`, in the source's
enumeration order: `for col_off in (0, 1): for row_off in (0, 1)`. -/
def cornerCandidates : List (Nat × Nat) := [(0, 0), (0, 1), (1, 0), (1, 1)]

/-- Position of a corner in the enumeration order above (tie-break rank). -/
def cornerIdx : Nat × Nat → Nat
  | (0, 0) => 0
  | (0, 1) => 1
  | (1, 0) => 2
  | (1, 1) => 3
  | _ => 4

/-- The inner scoring loop of `_best_corner_for_single`: over the other 3
cells of the 2×2 canvas, +2 for a GENERATED cardinal neighbor (shares the
target's canvas row or column), +1 for a GENERATED diagonal one. -/
def corner_score (q : QuadrantPosition) (grid : Grid)
    (col_off row_off : Nat) : Int :=
  let origin_x := q.x - col_off
  let origin_y := q.y - row_off
  (List.range 2).foldl (fun acc dc =>
    (List.range 2).foldl (fun acc dr =>
      if dc = col_off ∧ dr = row_off then acc
      else
        let wx := origin_x + dc
        let wy := origin_y + dr
        if grid.isGeneratedAt (wx, wy) then
          if dc = col_off ∨ dr = row_off then acc + 2 else acc + 1
        else acc) acc) 0

/-- `_best_corner_for_single(q, grid)`: running best/argmax with initial
`best_corner = (0, 0)`, `best_score = -1`, strict `>` to update. -/
def best_corner_for_single (q : QuadrantPosition) (grid : Grid) :
    Nat × Nat :=
  (cornerCandidates.foldl
    (fun (acc : (Nat × Nat) × Int) c =>
      let s := corner_score q grid c.1 c.2
      if s > acc.2 then (c, s) else acc)
    ((0, 0), -1)).1

/-- A layout: world `(x, y)` → 2×2-canvas `(col, row)`, as the list of the
Python dict's entries in insertion order. -/
abbrev Layout := List ((Int × Int) × (Nat × Nat))

/-- Python dict indexing/`get` on a layout (keys are unique in every
layout the engine builds). -/
def assocLookup {β : Type} (l : List ((Int × Int) × β)) (k : Int × Int) :
    Option β :=
  (l.find? (fun e => decide (e.1 = k))).map (·.2)

/-- The `for dc in range(2): for dr in range(2): layout[...] = (dc, dr)`
block filling all four cells from a world origin, in insertion order. -/
def layout4 (origin_x origin_y : Int) : Layout :=
  [((origin_x, origin_y), (0, 0)),
   ((origin_x, origin_y + 1), (0, 1)),
   ((origin_x + 1, origin_y), (1, 0)),
   ((origin_x + 1, origin_y + 1), (1, 1))]

/-- The column (resp. row) scoring of the 1×2 (resp. 2×1) branches of
`_compute_2x2_layout`: +2 per GENERATED cell facing the uncovered
column/row. `other` is `1 - pos`, and `at2` gives the world coordinate
probed for offset `d ∈ {0, 1}`. -/
def pairPosScore (grid : Grid) (at2 : Nat → Nat → Int × Int) (pos : Nat) :
    Int :=
  (List.range 2).foldl (fun acc d =>
    if grid.isGeneratedAt (at2 pos d) then acc + 2 else acc) 0

/-- The `best = 0; best_score = -1; for p in (0, 1): ...` argmax used by
the 1×2 and 2×1 branches of `_compute_2x2_layout`. -/
def bestOfTwo (score : Nat → Int) : Nat :=
  (([0, 1] : List Nat).foldl
    (fun (acc : Nat × Int) p =>
      let s := score p
      if s > acc.2 then (p, s) else acc)
    (0, -1)).1

/-- `_compute_2x2_layout(selected, grid)` from infill_template.py. -/
def compute_2x2_layout (selected : List QuadrantPosition) (grid : Grid) :
    Layout :=
  match selected with
  | [] => []   -- unreachable: every caller guards non-empty selections
  | q0 :: rest =>
    let min_x := list_min q0.x (rest.map (·.x))
    let max_x := list_max q0.x (rest.map (·.x))
    let min_y := list_min q0.y (rest.map (·.y))
    let max_y := list_max q0.y (rest.map (·.y))
    let w := max_x - min_x + 1
    let h := max_y - min_y + 1
    if w = 1 ∧ h = 1 then
      let c := best_corner_for_single q0 grid
      layout4 (q0.x - c.1) (q0.y - c.2)
    else if w = 1 ∧ h = 2 then
      let best_col := bestOfTwo (pairPosScore grid
        (fun col d => (min_x - col + (1 - col : Nat), min_y + d)))
      layout4 (min_x - best_col) min_y
    else if w = 2 ∧ h = 1 then
      let best_row := bestOfTwo (pairPosScore grid
        (fun row d => (min_x + d, min_y - row + (1 - row : Nat))))
      layout4 min_x (min_y - best_row)
    else if w = 2 ∧ h = 2 then
      layout4 min_x min_y
    else []

/-- The red-border loop `for i in range(BORDER_WIDTH): draw.rectangle(...)`
around the cell whose top-left pixel corner is `(px, py)`. -/
def drawCellBorder (px py : Nat) (tmpl : Img) : Img :=
  (List.range BORDER_WIDTH).foldl
    (fun t i =>
      t.rectOutline (px + i) (py + i)
        (px + CELL_SIZE - 1 - i) (py + CELL_SIZE - 1 - i) BORDER_COLOR)
    tmpl

/-- The body of `create_template_image`'s `for world_key, (col, row) in
layout.items():` loop for one layout entry. -/
def place_cell (grid : Grid) (render_lookup : (Int × Int) → Option Img)
    (selected_keys : List (Int × Int)) (tmpl : Img)
    (entry : (Int × Int) × (Nat × Nat)) : Img :=
  let world_key := entry.1
  let px := entry.2.1 * CELL_SIZE
  let py := entry.2.2 * CELL_SIZE
  if world_key ∈ selected_keys then
    let tmpl1 :=
      match render_lookup world_key with
      | some render => tmpl.paste (render.resize CELL_SIZE CELL_SIZE) px py
      | none => tmpl
    drawCellBorder px py tmpl1
  else
    match grid.get world_key with
    | some q =>
      if q.state = QuadrantState.GENERATED then
        match q.image with
        | some img => tmpl.paste (img.resize CELL_SIZE CELL_SIZE) px py
        | none => tmpl
      else tmpl
    | none => tmpl

/-- `create_template_image(selected, grid, render_lookup, tile_size)` from
infill_template.py; raising `ValueError` on an empty selection is the
`.error` case.  The `tile_size` parameter is accepted (default
`TILE_SIZE`) exactly as in the source, whose body uses only the module
constants. -/
def create_template_image (selected : List QuadrantPosition) (grid : Grid)
    (render_lookup : (Int × Int) → Option Img) (tile_size : Nat := TILE_SIZE) :
    Except String (Img × Layout) :=
  match selected with
  | [] => .error "No quadrants selected"
  | q0 :: rest =>
    let sel := q0 :: rest
    let layout := compute_2x2_layout sel grid
    let selected_keys := sel.map QuadrantPosition.key
    let template := layout.foldl
      (place_cell grid render_lookup selected_keys)
      (Img.fill TILE_SIZE TILE_SIZE (0, 0, 0, 255))
    .ok (template, layout)

/-- `extract_generated_quadrants(result_image, selected, layout)` from
infill_template.py: for each selected quadrant in order, crop its cell
from the result and upscale it to `TILE_SIZE`.  A missing layout entry
(Python `KeyError` on `layout[q.key]`) aborts with `none`. -/
def extract_generated_quadrants (result_image : Img) :
    List QuadrantPosition → Layout → Option (List ((Int × Int) × Img))
  | [], _ => some []
  | q :: rest, layout =>
    match assocLookup layout q.key with
    | none => none
    | some cell =>
      let px := cell.1 * CELL_SIZE
      let py := cell.2 * CELL_SIZE
      let cropped := result_image.crop px py (px + CELL_SIZE) (py + CELL_SIZE)
      match extract_generated_quadrants result_image rest layout with
      | none => none
      | some res => some ((q.key, cropped.resize TILE_SIZE TILE_SIZE) :: res)

-- ── Strip planner (make_strip_plan.py) ────────────────────────────────

/-- Plan step status; the JSON strings "pending" / "done" / "error"
(anything else is treated as pending by the runner, like the source's
`step.get("status", "pending")`). -/
inductive StepStatus where
  | pending
  | done
  | error
deriving DecidableEq

/-- One plan step: `{"quadrants": [[x, y], ...], "status": ..., "error"?}`
(the wall-clock `elapsed_seconds` field is not modelled). -/
structure PlanStep where
  quadrants : List (Int × Int)
  status : StepStatus
  errorText : Option String := none
deriving DecidableEq

/-- The plan JSON object produced by `make_strip_plan`. -/
structure StripPlan where
  top_left : Int × Int
  bottom_right : Int × Int
  depth : Int
  total_steps : Nat
  steps : List PlanStep
deriving DecidableEq

/-- Python slicing `[col_quads[i:i+4] for i in range(0, len, 4)]`:
consecutive chunks of at most 4. -/
def chunksOf4 {α : Type} : List α → List (List α)
  | [] => []
  | a :: rest => (a :: rest.take 3) :: chunksOf4 (rest.drop 3)
termination_by l => l.length
decreasing_by simp; omega

/-- The inner `for y in range(min_y, max_y + 1)` loop of
`make_strip_plan`: the not-yet-GENERATED coordinates of column `x`.
`grid_states` models the Python dict via its total
`grid_states.get(k, EMPTY)` view. -/
def column_not_generated (grid_states : (Int × Int) → QuadrantState)
    (min_y max_y x : Int) : List (Int × Int) :=
  (intRange min_y (max_y + 1)).filterMap (fun y =>
    if grid_states (x, y) ≠ QuadrantState.GENERATED then some (x, y)
    else none)

/-- `make_strip_plan(grid_states, top_left, bottom_right)` from
make_strip_plan.py. -/
def make_strip_plan (grid_states : (Int × Int) → QuadrantState)
    (top_left bottom_right : Int × Int) : StripPlan :=
  let min_x := min top_left.1 bottom_right.1
  let max_x := max top_left.1 bottom_right.1
  let min_y := min top_left.2 bottom_right.2
  let max_y := max top_left.2 bottom_right.2
  let depth := max_y - min_y + 1
  let steps := (intRange min_x (max_x + 1)).flatMap (fun x =>
    let col_quads := column_not_generated grid_states min_y max_y x
    if col_quads = [] then []
    else if depth ≤ 3 then [{ quadrants := col_quads, status := .pending }]
    else (chunksOf4 col_quads).map
      (fun c => { quadrants := c, status := .pending }))
  { top_left := top_left, bottom_right := bottom_right, depth := depth,
    total_steps := steps.length, steps := steps }

-- ── Spiral planner (auto_generate.py) ─────────────────────────────────

/-- Python `range(a, b, -1)` over integers, descending. -/
def intRangeDesc (a b : Int) : List Int :=
  (List.range (a - b).toNat).map (fun (i : Nat) => a - (i : Int))

/-- One iteration of the `for r in range(max_radius + 1)` loop of
`spiral_order`: the coordinates collected for radius `r`, walking the
perimeter top edge (left→right), right edge (top+1→bottom), bottom edge
(right-1→left), left edge (bottom-1→top+1), keeping those in the input
set and not yet assigned. -/
def spiralRingAt (coord_set assigned : List (Int × Int)) (cx cy : Int)
    (r : Nat) : List (Int × Int) :=
  if r = 0 then
    if (cx, cy) ∈ coord_set then [(cx, cy)] else []
  else
    let rr : Int := r
    let keep := fun (pos : Int × Int) =>
      if pos ∈ coord_set ∧ pos ∉ assigned then some pos else none
    ((intRange (cx - rr) (cx + rr + 1)).filterMap
        (fun x => keep (x, cy - rr))) ++
      ((intRange (cy - rr + 1) (cy + rr + 1)).filterMap
        (fun y => keep (cx + rr, y))) ++
      ((intRangeDesc (cx + rr - 1) (cx - rr - 1)).filterMap
        (fun x => keep (x, cy + rr))) ++
      ((intRangeDesc (cy + rr - 1) (cy - rr)).filterMap
        (fun y => keep (cx - rr, y)))

/-- `spiral_order(coords)` from auto_generate.py: rings of coordinates
expanding from the floor midpoint `((min+max)//2)` of the bounding box;
each non-empty ring is appended and its members marked assigned. -/
def spiral_order (coords : List (Int × Int)) : List (List (Int × Int)) :=
  match coords with
  | [] => []
  | c0 :: rest =>
    let min_x := list_min c0.1 (rest.map (·.1))
    let max_x := list_max c0.1 (rest.map (·.1))
    let min_y := list_min c0.2 (rest.map (·.2))
    let max_y := list_max c0.2 (rest.map (·.2))
    let cx := (min_x + max_x).fdiv 2
    let cy := (min_y + max_y).fdiv 2
    let max_radius := (max (max_x - min_x) (max_y - min_y) + 1).toNat
    ((List.range (max_radius + 1)).foldl
      (fun (acc : List (List (Int × Int)) × List (Int × Int)) r =>
        let ring := spiralRingAt coords acc.2 cx cy r
        if ring = [] then acc else (acc.1 ++ [ring], acc.2 ++ ring))
      ([], [])).1

-- ── Spiral order (batch_generate.py `_spiral_order`) ──────────────────

/-- Doubled Chebyshev ring of `(r, c)` about the exact grid center
`((rows-1)/2, (cols-1)/2)`: `2 · max(|r - cr|, |c - cc|)`.  The source
compares the exact half-integer keys; doubling makes them integers
without changing any comparison. -/
def ring2 (rows cols : Nat) (rc : Nat × Nat) : Nat :=
  max ((2 * (rc.1 : Int)) - ((rows : Int) - 1)).natAbs
    ((2 * (rc.2 : Int)) - ((cols : Int) - 1)).natAbs

/-- The `is_diagonal` flag of `_spiral_order`'s sort key:
1 when the coordinate shares neither the center row nor the center
column, else 0. -/
def isDiagonal2 (rows cols : Nat) (rc : Nat × Nat) : Nat :=
  if (2 * (rc.1 : Int)) - ((rows : Int) - 1) ≠ 0 ∧
      (2 * (rc.2 : Int)) - ((cols : Int) - 1) ≠ 0 then 1 else 0

/-- The composite sort key `(ring, is_diagonal, r, c)` of `_spiral_order`,
as a lexicographic `≤` on coordinates.  The key is injective on distinct
coordinates, so the sorted result is unique and the stability of Python's
sort is irrelevant. -/
def spiralSortLe (rows cols : Nat) (a b : Nat × Nat) : Prop :=
  ring2 rows cols a < ring2 rows cols b ∨
    (ring2 rows cols a = ring2 rows cols b ∧
      (isDiagonal2 rows cols a < isDiagonal2 rows cols b ∨
        (isDiagonal2 rows cols a = isDiagonal2 rows cols b ∧
          (a.1 < b.1 ∨ (a.1 = b.1 ∧ a.2 ≤ b.2)))))

instance (rows cols : Nat) : DecidableRel (spiralSortLe rows cols) :=
  fun a b => by unfold spiralSortLe; infer_instance

instance (rows cols : Nat) : IsTotal (Nat × Nat) (spiralSortLe rows cols) :=
  ⟨by intro a b; unfold spiralSortLe; omega⟩

instance (rows cols : Nat) : IsTrans (Nat × Nat) (spiralSortLe rows cols) :=
  ⟨by intro a b c h1 h2; unfold spiralSortLe at *; omega⟩

/-- `_spiral_order(rows, cols)` from batch_generate.py: all `(row, col)`
pairs sorted by the composite key. -/
def spiral_order_grid (rows cols : Nat) : List (Nat × Nat) :=
  let coords := (List.range rows).flatMap
    (fun r => (List.range cols).map (fun c => (r, c)))
  List.insertionSort (spiralSortLe rows cols) coords

-- ── Plan runners ──────────────────────────────────────────────────────

/-- `_run_from_plan` from generate_tiles_omni.py, with the effectful
`run_generation_for_quadrants` call abstracted as the oracle `exec`
(success, or the text of the raised exception).  Steps whose status is
`done` or `error` are skipped unchanged; each remaining step is executed
and its status updated in place (the source persists the plan after every
step; only the final statuses matter here). -/
def run_from_plan (exec : List (Int × Int) → Except String Unit)
    (steps : List PlanStep) : List PlanStep :=
  steps.map (fun step =>
    match step.status with
    | .done => step
    | .error => step
    | .pending =>
      match exec step.quadrants with
      | .ok _ => { step with status := .done }
      | .error e => { step with status := .error, errorText := some e })

/-- The `for i, step in enumerate(steps): try ... except ... break` loop of
`auto_generate.main` (non-dry run with an API key): the returned trace
pairs each attempted batch with its outcome, and the loop breaks right
after the first failure. -/
def auto_run (exec : List (Int × Int) → Except String Unit) :
    List (List (Int × Int)) → List (List (Int × Int) × Except String Unit)
  | [] => []
  | s :: rest =>
    match exec s with
    | .ok u => (s, .ok u) :: auto_run exec rest
    | .error e => [(s, .error e)]

-- ── Claim-side definitions ────────────────────────────────────────────

/-- 4-adjacency of grid coordinates (the claims' cardinal neighborhood). -/
def adj4 (a b : Int × Int) : Prop :=
  (b.1 = a.1 - 1 ∧ b.2 = a.2) ∨ (b.1 = a.1 + 1 ∧ b.2 = a.2) ∨
    (b.1 = a.1 ∧ b.2 = a.2 - 1) ∨ (b.1 = a.1 ∧ b.2 = a.2 + 1)

instance (a b : Int × Int) : Decidable (adj4 a b) := by
  unfold adj4; infer_instance

/-- One 4-adjacent step staying inside a coordinate set. -/
def stepIn (keys : Finset (Int × Int)) (a b : Int × Int) : Prop :=
  a ∈ keys ∧ b ∈ keys ∧ adj4 a b

/-- Reachability inside a coordinate set by 4-adjacent steps. -/
def ReachIn (keys : Finset (Int × Int)) : (Int × Int) → (Int × Int) → Prop :=
  Relation.ReflTransGen (stepIn keys)

/-- The coordinate set forms a single 4-connected component. -/
def IsConnected4 (keys : Finset (Int × Int)) : Prop :=
  ∀ a ∈ keys, ∀ b ∈ keys, ReachIn keys a b

/-- Chebyshev distance of a coordinate from an (integer) center. -/
def chebFrom (cx cy : Int) (c : Int × Int) : Nat :=
  max (c.1 - cx).natAbs (c.2 - cy).natAbs

/-- C2's claimed spiral-order invariant, as stated, for `spiral_order`:
over the flattened emitted order, ring index (Chebyshev distance from the
exact bounding-box center of the input set — doubled to stay integral) is
non-decreasing, and within a fixed ring no diagonal coordinate precedes a
cardinal-aligned one (one sharing the center's row or column). -/
def spiralClaimHolds (coords : List (Int × Int)) : Prop :=
  match coords with
  | [] => True
  | c0 :: rest =>
    let sx := list_min c0.1 (rest.map (·.1)) + list_max c0.1 (rest.map (·.1))
    let sy := list_min c0.2 (rest.map (·.2)) + list_max c0.2 (rest.map (·.2))
    let ringD := fun (c : Int × Int) =>
      max (2 * c.1 - sx).natAbs (2 * c.2 - sy).natAbs
    let isCardinal := fun (c : Int × Int) => 2 * c.1 = sx ∨ 2 * c.2 = sy
    List.Pairwise
      (fun a b => ringD a ≤ ringD b ∧
        (ringD a = ringD b → isCardinal b → isCardinal a))
      (spiral_order coords).flatten

/-- The ring-index half of C2's claimed invariant, as stated, for
`spiral_order`: Chebyshev distance from the exact bounding-box center
(doubled to stay integral) is non-decreasing over the flattened emitted
order. -/
def spiralClaimRingHolds (coords : List (Int × Int)) : Prop :=
  match coords with
  | [] => True
  | c0 :: rest =>
    let sx := list_min c0.1 (rest.map (·.1)) + list_max c0.1 (rest.map (·.1))
    let sy := list_min c0.2 (rest.map (·.2)) + list_max c0.2 (rest.map (·.2))
    List.Pairwise
      (fun a b =>
        max (2 * a.1 - sx).natAbs (2 * a.2 - sy).natAbs ≤
          max (2 * b.1 - sx).natAbs (2 * b.2 - sy).natAbs)
      (spiral_order coords).flatten

/-- Placeholder step used only as the `getD` default below. -/
def dummyStep : PlanStep := { quadrants := [], status := .pending }

/-- C3's claimed fail-fast property for the plan-file runner: whenever a
step of the executed plan ends in `error`, every later step is left
exactly as it was in the input plan (it was never attempted). -/
def halts_after_error (exec : List (Int × Int) → Except String Unit)
    (steps : List PlanStep) : Prop :=
  ∀ i j : Fin steps.length, (i : Nat) < (j : Nat) →
    ((run_from_plan exec steps).getD i dummyStep).status = StepStatus.error →
    (run_from_plan exec steps).getD j dummyStep = steps.getD j dummyStep

/-- A concrete execution oracle that fails on the batch `[(0, 0)]` and
succeeds on everything else. -/
def failExec : List (Int × Int) → Except String Unit :=
  fun qs => if qs = [(0, 0)] then .error "boom" else .ok ()

/-- A concrete two-step pending plan. -/
def demoPlanSteps : List PlanStep :=
  [{ quadrants := [(0, 0)], status := .pending },
   { quadrants := [(1, 0)], status := .pending }]

-- ── Helper lemmas ─────────────────────────────────────────────────────

theorem foldl_min_le_init : ∀ (xs : List Int) (x : Int), xs.foldl min x ≤ x := by
  intro xs
  induction xs with
  | nil => simp
  | cons z zs ih =>
    intro x
    exact le_trans (ih (min x z)) (min_le_left _ _)

theorem init_le_foldl_max : ∀ (xs : List Int) (x : Int), x ≤ xs.foldl max x := by
  intro xs
  induction xs with
  | nil => simp
  | cons z zs ih =>
    intro x
    exact le_trans (le_max_left _ _) (ih (max x z))

theorem list_min_le {y x : Int} {xs : List Int} (h : y = x ∨ y ∈ xs) :
    list_min x xs ≤ y := by
  induction xs generalizing x with
  | nil => simp at h; simp [list_min, h]
  | cons z zs ih =>
    simp only [list_min, List.foldl_cons] at *
    rcases h with rfl | h
    · exact le_trans (foldl_min_le_init zs _) (min_le_left _ _)
    · rcases List.mem_cons.mp h with rfl | hy
      · exact le_trans (foldl_min_le_init zs _) (min_le_right _ _)
      · exact ih (Or.inr hy)

theorem le_list_max {y x : Int} {xs : List Int} (h : y = x ∨ y ∈ xs) :
    y ≤ list_max x xs := by
  induction xs generalizing x with
  | nil => simp at h; simp [list_max, h]
  | cons z zs ih =>
    simp only [list_max, List.foldl_cons] at *
    rcases h with rfl | h
    · exact le_trans (le_max_left _ _) (init_le_foldl_max zs _)
    · rcases List.mem_cons.mp h with rfl | hy
      · exact le_trans (le_max_right _ _) (init_le_foldl_max zs _)
      · exact ih (Or.inr hy)

/-- Bounding-box bounds: every selected quadrant lies inside the box. -/
theorem sel_bounds (q0 : QuadrantPosition) (rest : List QuadrantPosition) :
    ∀ q ∈ q0 :: rest,
      list_min q0.x (rest.map (·.x)) ≤ q.x ∧
      q.x ≤ list_max q0.x (rest.map (·.x)) ∧
      list_min q0.y (rest.map (·.y)) ≤ q.y ∧
      q.y ≤ list_max q0.y (rest.map (·.y)) := by
  intro q hq
  have hx : q.x = q0.x ∨ q.x ∈ rest.map (·.x) := by
    rcases List.mem_cons.mp hq with rfl | h
    · exact Or.inl rfl
    · exact Or.inr (List.mem_map.mpr ⟨q, h, rfl⟩)
  have hy : q.y = q0.y ∨ q.y ∈ rest.map (·.y) := by
    rcases List.mem_cons.mp hq with rfl | h
    · exact Or.inl rfl
    · exact Or.inr (List.mem_map.mpr ⟨q, h, rfl⟩)
  exact ⟨list_min_le hx, le_list_max hx, list_min_le hy, le_list_max hy⟩

theorem mem_intRange {a b x : Int} : x ∈ intRange a b ↔ a ≤ x ∧ x < b := by
  simp only [intRange, List.mem_map, List.mem_range]
  constructor
  · rintro ⟨i, hi, rfl⟩; omega
  · intro h; exact ⟨(x - a).toNat, by omega, by omega⟩

theorem mem_intRangeDesc {a b x : Int} :
    x ∈ intRangeDesc a b ↔ b < x ∧ x ≤ a := by
  simp only [intRangeDesc, List.mem_map, List.mem_range]
  constructor
  · rintro ⟨i, hi, rfl⟩; omega
  · intro h; exact ⟨(a - x).toNat, by omega, by omega⟩

/-- A selection with distinct keys that fills its bounding box has
exactly `w · h` members (the source's rectangularity test). -/
theorem sel_length_of_fills (q0 : QuadrantPosition)
    (rest : List QuadrantPosition)
    (hnd : ((q0 :: rest).map QuadrantPosition.key).Nodup)
    (hfill : ∀ p : Int × Int,
      list_min q0.x (rest.map (·.x)) ≤ p.1 →
      p.1 ≤ list_max q0.x (rest.map (·.x)) →
      list_min q0.y (rest.map (·.y)) ≤ p.2 →
      p.2 ≤ list_max q0.y (rest.map (·.y)) →
      p ∈ (q0 :: rest).map QuadrantPosition.key) :
    ((q0 :: rest).length : Int) =
      (list_max q0.x (rest.map (·.x)) - list_min q0.x (rest.map (·.x)) + 1) *
      (list_max q0.y (rest.map (·.y)) - list_min q0.y (rest.map (·.y)) + 1) := by
  set mnx := list_min q0.x (rest.map (·.x)) with hmnx
  set mxx := list_max q0.x (rest.map (·.x)) with hmxx
  set mny := list_min q0.y (rest.map (·.y)) with hmny
  set mxy := list_max q0.y (rest.map (·.y)) with hmxy
  have hset : ((q0 :: rest).map QuadrantPosition.key).toFinset =
      Finset.Icc mnx mxx ×ˢ Finset.Icc mny mxy := by
    ext p
    simp only [List.mem_toFinset, Finset.mem_product, Finset.mem_Icc]
    constructor
    · intro hp
      obtain ⟨q, hq, rfl⟩ := List.mem_map.mp hp
      obtain ⟨h1, h2, h3, h4⟩ := sel_bounds q0 rest q hq
      exact ⟨⟨h1, h2⟩, ⟨h3, h4⟩⟩
    · rintro ⟨⟨h1, h2⟩, ⟨h3, h4⟩⟩
      exact hfill p h1 h2 h3 h4
  have hcard1 : ((q0 :: rest).map QuadrantPosition.key).toFinset.card =
      (q0 :: rest).length := by
    rw [List.toFinset_card_of_nodup hnd, List.length_map]
  have hcard2 : (Finset.Icc mnx mxx ×ˢ Finset.Icc mny mxy).card =
      (mxx + 1 - mnx).toNat * (mxy + 1 - mny).toNat := by
    rw [Finset.card_product, Int.card_Icc, Int.card_Icc]
  have hx0 : mnx ≤ q0.x ∧ q0.x ≤ mxx ∧ mny ≤ q0.y ∧ q0.y ≤ mxy :=
    sel_bounds q0 rest q0 (List.mem_cons_self _ _)
  have hlen : (q0 :: rest).length =
      (mxx + 1 - mnx).toNat * (mxy + 1 - mny).toNat := by
    rw [← hcard1, hset, hcard2]
  have h1 : ((mxx + 1 - mnx).toNat : Int) = mxx + 1 - mnx := by omega
  have h2 : ((mxy + 1 - mny).toNat : Int) = mxy + 1 - mny := by omega
  calc ((q0 :: rest).length : Int)
      = ((mxx + 1 - mnx).toNat : Int) * ((mxy + 1 - mny).toNat : Int) := by
        rw [hlen]; push_cast; ring
    _ = (mxx - mnx + 1) * (mxy - mny + 1) := by rw [h1, h2]; ring

-- ── C1 ────────────────────────────────────────────────────────────────

/-- C1: for every selection filling a rectangular bounding box of width
and height at most 2, `validate_seam_rules` returns a non-empty violation
list exactly per the side-coverage thresholds: 1×1 iff all 4 sides of the
box are covered by a GENERATED cell immediately outside, 1×2 (tall) iff
both left and right are covered, 2×1 (wide) iff both top and bottom are
covered, 2×2 iff any side is covered; and any selection whose bounding
box exceeds 2×2 is rejected outright with the size-violation message. -/
theorem C1_seam_side_thresholds (grid : Grid) (q0 : QuadrantPosition)
    (rest : List QuadrantPosition) (min_x max_x min_y max_y w h : Int)
    (hmnx : min_x = list_min q0.x (rest.map (·.x)))
    (hmxx : max_x = list_max q0.x (rest.map (·.x)))
    (hmny : min_y = list_min q0.y (rest.map (·.y)))
    (hmxy : max_y = list_max q0.y (rest.map (·.y)))
    (hw : w = max_x - min_x + 1) (hh : h = max_y - min_y + 1) :
    ((w > 2 ∨ h > 2) →
        validate_seam_rules (q0 :: rest) grid = [.bboxTooLarge w h]) ∧
    ((((q0 :: rest).map QuadrantPosition.key).Nodup →
      (∀ p : Int × Int, min_x ≤ p.1 → p.1 ≤ max_x → min_y ≤ p.2 →
        p.2 ≤ max_y → p ∈ (q0 :: rest).map QuadrantPosition.key) →
      ((w = 1 ∧ h = 1 →
        (validate_seam_rules (q0 :: rest) grid ≠ [] ↔
          (has_generated_on_side grid .top (min_x, min_y, max_x, max_y) = true ∧
           has_generated_on_side grid .bottom (min_x, min_y, max_x, max_y) = true ∧
           has_generated_on_side grid .left (min_x, min_y, max_x, max_y) = true ∧
           has_generated_on_side grid .right (min_x, min_y, max_x, max_y) = true))) ∧
       (w = 1 ∧ h = 2 →
        (validate_seam_rules (q0 :: rest) grid ≠ [] ↔
          (has_generated_on_side grid .left (min_x, min_y, max_x, max_y) = true ∧
           has_generated_on_side grid .right (min_x, min_y, max_x, max_y) = true))) ∧
       (w = 2 ∧ h = 1 →
        (validate_seam_rules (q0 :: rest) grid ≠ [] ↔
          (has_generated_on_side grid .top (min_x, min_y, max_x, max_y) = true ∧
           has_generated_on_side grid .bottom (min_x, min_y, max_x, max_y) = true))) ∧
       (w = 2 ∧ h = 2 →
        (validate_seam_rules (q0 :: rest) grid ≠ [] ↔
          (has_generated_on_side grid .top (min_x, min_y, max_x, max_y) = true ∨
           has_generated_on_side grid .bottom (min_x, min_y, max_x, max_y) = true ∨
           has_generated_on_side grid .left (min_x, min_y, max_x, max_y) = true ∨
           has_generated_on_side grid .right (min_x, min_y, max_x, max_y) = true)))))) := by
  subst hw hh hmnx hmxx hmny hmxy
  constructor
  · intro hbig
    simp only [validate_seam_rules]
    rw [if_pos hbig]
  · intro hnd hfill
    have hlen := sel_length_of_fills q0 rest hnd hfill
    have hlen' : ¬(((q0 :: rest).length : Int) ≠
        (list_max q0.x (rest.map (·.x)) - list_min q0.x (rest.map (·.x)) + 1) *
        (list_max q0.y (rest.map (·.y)) - list_min q0.y (rest.map (·.y)) + 1)) :=
      fun hne => hne hlen
    refine ⟨?_, ?_, ?_, ?_⟩
    · rintro ⟨hw1, hh1⟩
      simp only [validate_seam_rules]
      rw [if_neg (by omega), if_neg hlen', if_pos ⟨hw1, hh1⟩]
      cases htop : has_generated_on_side grid .top _ <;>
        cases hbot : has_generated_on_side grid .bottom _ <;>
          cases hleft : has_generated_on_side grid .left _ <;>
            cases hright : has_generated_on_side grid .right _ <;>
              simp [List.filter_cons, htop, hbot, hleft, hright]
    · rintro ⟨hw1, hh1⟩
      simp only [validate_seam_rules]
      rw [if_neg (by omega), if_neg hlen', if_neg (by omega),
        if_pos ⟨hw1, hh1⟩]
      cases hleft : has_generated_on_side grid .left _ <;>
        cases hright : has_generated_on_side grid .right _ <;>
          simp [hleft, hright]
    · rintro ⟨hw1, hh1⟩
      simp only [validate_seam_rules]
      rw [if_neg (by omega), if_neg hlen', if_neg (by omega),
        if_neg (by omega), if_pos ⟨hw1, hh1⟩]
      cases htop : has_generated_on_side grid .top _ <;>
        cases hbot : has_generated_on_side grid .bottom _ <;>
          simp [htop, hbot]
    · rintro ⟨hw1, hh1⟩
      simp only [validate_seam_rules]
      rw [if_neg (by omega), if_neg hlen', if_neg (by omega),
        if_neg (by omega), if_neg (by omega), if_pos ⟨hw1, hh1⟩]
      cases htop : has_generated_on_side grid .top _ <;>
        cases hbot : has_generated_on_side grid .bottom _ <;>
          cases hleft : has_generated_on_side grid .left _ <;>
            cases hright : has_generated_on_side grid .right _ <;>
              simp [List.filterMap_cons, htop, hbot, hleft, hright]

/-- C1 witness: a 1×1 selection with GENERATED cells on all four sides is
rejected by the seam rules. -/
theorem C1_seam_side_thresholds_witness :
    validate_seam_rules [{ x := 0, y := 0 }]
      [{ x := 0, y := -1, state := .GENERATED },
       { x := 0, y := 1, state := .GENERATED },
       { x := -1, y := 0, state := .GENERATED },
       { x := 1, y := 0, state := .GENERATED }] ≠ [] := by
  have h := (C1_seam_side_thresholds
    [{ x := 0, y := -1, state := .GENERATED },
     { x := 0, y := 1, state := .GENERATED },
     { x := -1, y := 0, state := .GENERATED },
     { x := 1, y := 0, state := .GENERATED }]
    { x := 0, y := 0 } [] 0 0 0 0 1 1 rfl rfl rfl rfl (by decide) (by decide)).2
    (by decide)
    (by
      intro p h1 h2 h3 h4
      simp only [List.map_cons, List.map_nil, List.mem_singleton,
        QuadrantPosition.key, Prod.ext_iff]
      omega)
  exact (h.1 ⟨rfl, rfl⟩).mpr (by decide)

-- ── Connectivity machinery (C4) ───────────────────────────────────────


theorem adj4_symm {a b : Int × Int} (h : adj4 a b) : adj4 b a := by
  unfold adj4 at *; omega

theorem stepIn_symm (keys : Finset (Int × Int)) : Symmetric (stepIn keys) :=
  fun _ _ h => ⟨h.2.1, h.1, adj4_symm h.2.2⟩

theorem reachIn_symm (keys : Finset (Int × Int)) : Symmetric (ReachIn keys) :=
  Relation.ReflTransGen.symmetric (stepIn_symm keys)

/-- Every element of the stack after the neighbor-push fold is either an
old stack element or an in-set neighbor of `current`. -/
theorem floodPush_mem (keys visited' : Finset (Int × Int))
    (current : Int × Int) :
    ∀ (ds : List (Int × Int)) (stack : List (Int × Int)) (s : Int × Int),
      s ∈ ds.foldl (fun s d =>
        let nb := (current.1 + d.1, current.2 + d.2)
        if nb ∈ keys ∧ nb ∉ visited' then nb :: s else s) stack →
      s ∈ stack ∨
        ∃ d ∈ ds, s = (current.1 + d.1, current.2 + d.2) ∧ s ∈ keys := by
  intro ds
  induction ds with
  | nil => intro stack s hs; exact Or.inl hs
  | cons d ds ih =>
    intro stack s hs
    simp only [List.foldl_cons] at hs
    rcases ih _ s hs with h | ⟨d', hd', heq, hk⟩
    · by_cases hc : (current.1 + d.1, current.2 + d.2) ∈ keys ∧
          (current.1 + d.1, current.2 + d.2) ∉ visited'
      · simp only [if_pos hc] at h
        rcases List.mem_cons.mp h with rfl | h'
        · exact Or.inr ⟨d, List.mem_cons_self _ _, rfl, hc.1⟩
        · exact Or.inl h'
      · simp only [if_neg hc] at h
        exact Or.inl h
    · exact Or.inr ⟨d', List.mem_cons_of_mem _ hd', heq, hk⟩

theorem cardinalDeltas_adj (current : Int × Int) {d : Int × Int}
    (hd : d ∈ cardinalDeltas) :
    adj4 current (current.1 + d.1, current.2 + d.2) := by
  simp only [cardinalDeltas, List.mem_cons, List.not_mem_nil, or_false] at hd
  rcases hd with rfl | rfl | rfl | rfl <;> unfold adj4 <;> simp <;> omega

/-- Soundness of the flood fill: everything it visits is reachable from
the seed by 4-adjacent steps inside the key set, whatever the fuel. -/
theorem floodFill_sound (keys : Finset (Int × Int)) (seed : Int × Int) :
    ∀ (fuel : Nat) (visited : Finset (Int × Int))
      (stack : List (Int × Int)),
      (∀ v ∈ visited, ReachIn keys seed v) →
      (∀ s ∈ stack, s ∈ keys ∧ ReachIn keys seed s) →
      ∀ v ∈ floodFill keys fuel visited stack, ReachIn keys seed v := by
  intro fuel
  induction fuel with
  | zero =>
    intro visited stack hv _ v hmem
    exact hv v (by simpa [floodFill] using hmem)
  | succ n ih =>
    intro visited stack hv hs v hmem
    cases stack with
    | nil => exact hv v (by simpa [floodFill] using hmem)
    | cons current rest =>
      simp only [floodFill] at hmem
      by_cases hc : current ∈ visited
      · rw [if_pos hc] at hmem
        exact ih visited rest hv
          (fun s h => hs s (List.mem_cons_of_mem _ h)) v hmem
      · rw [if_neg hc] at hmem
        obtain ⟨hck, hcr⟩ := hs current (List.mem_cons_self _ _)
        refine ih _ _ ?_ ?_ v hmem
        · intro u hu
          rcases Finset.mem_insert.mp hu with rfl | hu'
          · exact hcr
          · exact hv u hu'
        · intro s hsm
          rcases floodPush_mem keys _ current cardinalDeltas rest s hsm with
            h | ⟨d, hd, rfl, hk⟩
          · exact hs s (List.mem_cons_of_mem _ h)
          · exact ⟨hk, Relation.ReflTransGen.tail hcr
              ⟨hck, hk, cardinalDeltas_adj current hd⟩⟩

/-- In a key set with no adjacent pair, reachability collapses to
equality (used by the C4 witness). -/
theorem reachIn_eq_of_no_adj (keys : Finset (Int × Int))
    (h : ∀ a ∈ keys, ∀ b ∈ keys, ¬ adj4 a b) {a b : Int × Int}
    (hr : ReachIn keys a b) : a = b := by
  induction hr with
  | refl => rfl
  | tail _ hbc ih => exact absurd hbc.2.2 (h _ hbc.1 _ hbc.2.1)

/-- Every value the seam validator can emit is a seam/size/shape
violation, never a connectivity or neighbor-context one. -/
theorem validate_seam_rules_shapes (sel : List QuadrantPosition)
    (grid : Grid) :
    ∀ v ∈ validate_seam_rules sel grid,
      v ≠ Violation.noGeneratedNeighbor ∧ v ≠ Violation.notConnected := by
  intro v hv
  match sel with
  | [] => simp [validate_seam_rules] at hv
  | q0 :: rest =>
    simp only [validate_seam_rules] at hv
    split_ifs at hv with h1 h2 h3 h4 h5 h6 h7 h8 h9
    · simp only [List.mem_singleton] at hv; subst hv; exact ⟨by simp, by simp⟩
    · simp only [List.mem_singleton] at hv; subst hv; exact ⟨by simp, by simp⟩
    · simp only [List.mem_singleton] at hv; subst hv; exact ⟨by simp, by simp⟩
    · simp at hv
    · simp only [List.mem_singleton] at hv; subst hv; exact ⟨by simp, by simp⟩
    · simp at hv
    · simp only [List.mem_singleton] at hv; subst hv; exact ⟨by simp, by simp⟩
    · simp at hv
    · obtain ⟨s, _, heq⟩ := List.mem_filterMap.mp hv
      split at heq
      · cases heq; exact ⟨by simp, by simp⟩
      · exact absurd heq (by simp)
    · simp at hv

-- ── C4 ────────────────────────────────────────────────────────────────

/-- C4: a selection of more than one quadrant whose coordinate set is not
one 4-connected component is always rejected by
`validate_generation_config` with a connectivity violation, regardless of
the other rules. -/
theorem C4_connectivity_always_rejected (selected : List QuadrantPosition)
    (grid : Grid) (h1 : 1 < selected.length)
    (h2 : ¬ IsConnected4 ((selected.map QuadrantPosition.key).toFinset)) :
    Violation.notConnected ∈ validate_generation_config selected grid ∧
      validate_generation_config selected grid ≠ [] := by
  cases selected with
  | nil => simp at h1
  | cons q0 rest =>
    set keys := ((q0 :: rest).map QuadrantPosition.key).toFinset with hkeys
    have hseed : q0.key ∈ keys := by simp [hkeys]
    have hex : ∃ b ∈ keys, ¬ ReachIn keys q0.key b := by
      by_contra hno
      push_neg at hno
      apply h2
      intro a ha b hb
      exact Relation.ReflTransGen.trans (reachIn_symm keys (hno a ha))
        (hno b hb)
    obtain ⟨b, hbk, hbr⟩ := hex
    have hsound := floodFill_sound keys q0.key (1 + 5 * (q0 :: rest).length)
      ∅ [q0.key] (by simp)
      (by
        intro s hs
        rcases List.mem_singleton.mp hs with rfl
        exact ⟨hseed, Relation.ReflTransGen.refl⟩)
    have hne : floodFill keys (1 + 5 * (q0 :: rest).length) ∅ [q0.key] ≠
        keys := by
      intro heq
      exact hbr (hsound b (by rw [heq]; exact hbk))
    have hmem : Violation.notConnected ∈
        validate_generation_config (q0 :: rest) grid := by
      simp only [validate_generation_config]
      simp only [List.mem_append]
      refine Or.inl (Or.inl (Or.inr ?_))
      rw [if_pos h1, if_pos hne]
      simp
    refine ⟨hmem, fun hemp => ?_⟩
    rw [hemp] at hmem
    exact List.not_mem_nil _ hmem

/-- C4 witness: the two-quadrant selection {(0,0), (2,0)} is not
4-connected and is rejected with a connectivity violation. -/
theorem C4_connectivity_always_rejected_witness :
    Violation.notConnected ∈
      validate_generation_config [{ x := 0, y := 0 }, { x := 2, y := 0 }]
        [] ∧
      validate_generation_config [{ x := 0, y := 0 }, { x := 2, y := 0 }]
        [] ≠ [] := by
  refine C4_connectivity_always_rejected _ _ (by decide) ?_
  intro hconn
  have h := hconn (0, 0) (by decide) (2, 0) (by decide)
  have := reachIn_eq_of_no_adj _ (by decide) h
  exact absurd this (by decide)

-- ── C5 ────────────────────────────────────────────────────────────────

/-- C5: on a grid with no GENERATED quadrant, the neighbor-context rule
of `validate_generation_config` never fires; conversely, if the grid
holds a GENERATED quadrant anywhere and no selected quadrant has a
cardinal GENERATED neighbor, the validator reports the neighbor-context
violation. -/
theorem C5_neighbor_context_bootstrap (selected : List QuadrantPosition)
    (grid : Grid) (hne : selected ≠ []) :
    ((∀ g ∈ Grid.values grid, g.state ≠ QuadrantState.GENERATED) →
      Violation.noGeneratedNeighbor ∉
        validate_generation_config selected grid) ∧
    ((∃ g ∈ Grid.values grid, g.state = QuadrantState.GENERATED) →
      (∀ q ∈ selected, ∀ nb ∈ q.cardinal_neighbor_keys,
        grid.isGeneratedAt nb = false) →
      Violation.noGeneratedNeighbor ∈
        validate_generation_config selected grid) := by
  cases selected with
  | nil => exact absurd rfl hne
  | cons q0 rest =>
    constructor
    · intro hnone hmem
      have hgen : Grid.hasAnyGenerated grid = false := by
        rw [Grid.hasAnyGenerated, List.any_eq_false]
        intro q hq
        simpa using hnone q hq
      simp only [validate_generation_config, List.mem_append] at hmem
      rcases hmem with ((hr | hc) | hn) | hs
      · obtain ⟨q, _, heq⟩ := List.mem_filterMap.mp hr
        split at heq
        · cases heq
        · exact absurd heq (by simp)
      · split_ifs at hc <;> simp at hc
      · rw [hgen] at hn
        simp at hn
      · exact absurd rfl
          (validate_seam_rules_shapes (q0 :: rest) grid _ hs).1
    · intro hex hnonb
      have hgen : Grid.hasAnyGenerated grid = true := by
        rw [Grid.hasAnyGenerated, List.any_eq_true]
        obtain ⟨g, hg, hst⟩ := hex
        exact ⟨g, hg, by simp [hst]⟩
      have hnb : (q0 :: rest).any (fun q =>
          q.cardinal_neighbor_keys.any (fun nb => grid.isGeneratedAt nb)) =
          false := by
        rw [List.any_eq_false]
        intro q hq
        simp only [Bool.not_eq_true, List.any_eq_false]
        intro nb hnb'
        simp [hnonb q hq nb hnb']
      simp only [validate_generation_config, List.mem_append]
      refine Or.inl (Or.inr ?_)
      rw [hgen]
      simp only [if_true]
      rw [hnb]
      simp

/-- C5 witness: with one GENERATED quadrant at (5,5) and the selection
{(0,0)} (no cardinal GENERATED neighbor), the neighbor-context violation
is reported; and on the empty grid it never is. -/
theorem C5_neighbor_context_bootstrap_witness :
    Violation.noGeneratedNeighbor ∉
      validate_generation_config [{ x := 0, y := 0 }] [] ∧
    Violation.noGeneratedNeighbor ∈
      validate_generation_config [{ x := 0, y := 0 }]
        [{ x := 5, y := 5, state := .GENERATED }] := by
  constructor
  · exact (C5_neighbor_context_bootstrap [{ x := 0, y := 0 }] []
      (by decide)).1 (by decide)
  · exact (C5_neighbor_context_bootstrap [{ x := 0, y := 0 }]
      [{ x := 5, y := 5, state := .GENERATED }] (by decide)).2
      (by decide) (by decide)

-- ── C7 ────────────────────────────────────────────────────────────────

theorem le_foldl_of_le {α : Type} (f : Int → α → Int)
    (hf : ∀ acc x, acc ≤ f acc x) :
    ∀ (l : List α) (init : Int), init ≤ l.foldl f init := by
  intro l
  induction l with
  | nil => simp
  | cons a l ih => intro init; exact le_trans (hf init a) (ih (f init a))

theorem corner_score_nonneg (q : QuadrantPosition) (grid : Grid)
    (a b : Nat) : 0 ≤ corner_score q grid a b := by
  unfold corner_score
  apply le_foldl_of_le
  intro acc dc
  apply le_foldl_of_le
  intro acc' dr
  dsimp only
  split_ifs <;> omega

/-- C7: `_best_corner_for_single` returns the corner whose score (+2 per
GENERATED neighbor sharing the target's canvas row or column, +1 per
GENERATED diagonal neighbor) is maximal, and among equal scores the first
corner in the enumeration order (columns {0,1} outer, rows {0,1} inner). -/
theorem C7_best_corner_argmax (q : QuadrantPosition) (grid : Grid) :
    best_corner_for_single q grid ∈ cornerCandidates ∧
    (∀ c ∈ cornerCandidates,
      corner_score q grid c.1 c.2 ≤
        corner_score q grid (best_corner_for_single q grid).1
          (best_corner_for_single q grid).2) ∧
    (∀ c ∈ cornerCandidates,
      corner_score q grid c.1 c.2 =
        corner_score q grid (best_corner_for_single q grid).1
          (best_corner_for_single q grid).2 →
      cornerIdx (best_corner_for_single q grid) ≤ cornerIdx c) := by
  have h00 := corner_score_nonneg q grid 0 0
  have h01 := corner_score_nonneg q grid 0 1
  have h10 := corner_score_nonneg q grid 1 0
  have h11 := corner_score_nonneg q grid 1 1
  simp only [best_corner_for_single, cornerCandidates, List.foldl_cons,
    List.foldl_nil]
  rw [if_pos (show corner_score q grid (0, 0).1 (0, 0).2 >
    ((0, 0), (-1 : Int)).2 by simp only []; omega)]
  split_ifs with h1 h2 h3 h4 h5 h6 h7 <;>
    refine ⟨by simp, ?_, ?_⟩ <;>
      intro c hc <;>
        simp only [cornerCandidates, List.mem_cons, List.not_mem_nil,
          or_false] at hc <;>
          rcases hc with rfl | rfl | rfl | rfl <;>
            simp only [cornerIdx] <;> simp at * <;> omega

-- ── Template/extractor size lemmas (C6, C9) ───────────────────────────

theorem foldl_rectOutline_width (px py : Nat) :
    ∀ (l : List Nat) (t : Img),
      (l.foldl (fun t i => t.rectOutline (px + i) (py + i)
        (px + CELL_SIZE - 1 - i) (py + CELL_SIZE - 1 - i) BORDER_COLOR)
        t).width = t.width := by
  intro l
  induction l with
  | nil => intro t; rfl
  | cons a l ih => intro t; rw [List.foldl_cons, ih]; rfl

theorem foldl_rectOutline_height (px py : Nat) :
    ∀ (l : List Nat) (t : Img),
      (l.foldl (fun t i => t.rectOutline (px + i) (py + i)
        (px + CELL_SIZE - 1 - i) (py + CELL_SIZE - 1 - i) BORDER_COLOR)
        t).height = t.height := by
  intro l
  induction l with
  | nil => intro t; rfl
  | cons a l ih => intro t; rw [List.foldl_cons, ih]; rfl

theorem place_cell_width (grid : Grid)
    (rl : (Int × Int) → Option Img) (keys : List (Int × Int)) (tmpl : Img)
    (entry : (Int × Int) × (Nat × Nat)) :
    (place_cell grid rl keys tmpl entry).width = tmpl.width := by
  unfold place_cell drawCellBorder
  by_cases h : entry.1 ∈ keys
  · rw [if_pos h]
    cases hrl : rl entry.1 <;>
      simp only [foldl_rectOutline_width] <;> rfl
  · rw [if_neg h]
    cases hg : grid.get entry.1 with
    | none => rfl
    | some q =>
      dsimp only
      split_ifs with hs
      · cases hi : q.image <;> rfl
      · rfl

theorem place_cell_height (grid : Grid)
    (rl : (Int × Int) → Option Img) (keys : List (Int × Int)) (tmpl : Img)
    (entry : (Int × Int) × (Nat × Nat)) :
    (place_cell grid rl keys tmpl entry).height = tmpl.height := by
  unfold place_cell drawCellBorder
  by_cases h : entry.1 ∈ keys
  · rw [if_pos h]
    cases hrl : rl entry.1 <;>
      simp only [foldl_rectOutline_height] <;> rfl
  · rw [if_neg h]
    cases hg : grid.get entry.1 with
    | none => rfl
    | some q =>
      dsimp only
      split_ifs with hs
      · cases hi : q.image <;> rfl
      · rfl

theorem foldl_place_cell_width (grid : Grid)
    (rl : (Int × Int) → Option Img) (keys : List (Int × Int)) :
    ∀ (l : Layout) (t : Img),
      (l.foldl (place_cell grid rl keys) t).width = t.width := by
  intro l
  induction l with
  | nil => intro t; rfl
  | cons e l ih =>
    intro t
    rw [List.foldl_cons, ih, place_cell_width]

theorem foldl_place_cell_height (grid : Grid)
    (rl : (Int × Int) → Option Img) (keys : List (Int × Int)) :
    ∀ (l : Layout) (t : Img),
      (l.foldl (place_cell grid rl keys) t).height = t.height := by
  intro l
  induction l with
  | nil => intro t; rfl
  | cons e l ih =>
    intro t
    rw [List.foldl_cons, ih, place_cell_height]

-- ── C9 ────────────────────────────────────────────────────────────────

/-- C9: the `tile_size` parameter of `create_template_image` has no
effect on its output, and for a non-empty selection the returned template
always has resolution `TILE_SIZE × TILE_SIZE` = 1024×1024 with
`CELL_SIZE` = 512 cells. -/
theorem C9_tile_size_has_no_effect (selected : List QuadrantPosition)
    (grid : Grid) (render_lookup : (Int × Int) → Option Img)
    (t1 t2 : Nat) :
    create_template_image selected grid render_lookup t1 =
      create_template_image selected grid render_lookup t2 ∧
    (selected ≠ [] → ∃ tmpl layout,
      create_template_image selected grid render_lookup t1 =
        .ok (tmpl, layout) ∧
      tmpl.width = TILE_SIZE ∧ tmpl.height = TILE_SIZE ∧
      TILE_SIZE = 1024 ∧ CELL_SIZE = 512) := by
  refine ⟨rfl, ?_⟩
  intro hne
  cases selected with
  | nil => exact absurd rfl hne
  | cons q0 rest =>
    refine ⟨_, _, rfl, ?_, ?_, rfl, rfl⟩
    · exact (foldl_place_cell_width grid render_lookup _ _ _).trans rfl
    · exact (foldl_place_cell_height grid render_lookup _ _ _).trans rfl

/-- C9 witness at a concrete 1×1 selection with two different tile sizes. -/
theorem C9_tile_size_has_no_effect_witness :
    create_template_image [{ x := 0, y := 0 }] [] (fun _ => none) 0 =
      create_template_image [{ x := 0, y := 0 }] [] (fun _ => none) 999 ∧
    (∃ tmpl layout,
      create_template_image [{ x := 0, y := 0 }] [] (fun _ => none) 0 =
        .ok (tmpl, layout) ∧
      tmpl.width = TILE_SIZE ∧ tmpl.height = TILE_SIZE ∧
      TILE_SIZE = 1024 ∧ CELL_SIZE = 512) :=
  ⟨(C9_tile_size_has_no_effect [{ x := 0, y := 0 }] [] (fun _ => none)
      0 999).1,
   (C9_tile_size_has_no_effect [{ x := 0, y := 0 }] [] (fun _ => none)
      0 999).2 (by decide)⟩

-- ── Layout coverage lemmas (C6, C10) ──────────────────────────────────

/-- The running argmax used by the layout engine only ever returns the
initial candidate or a member of the scanned list. -/
theorem foldArgmax_mem {α : Type} (f : α → Int) :
    ∀ (l : List α) (acc : α × Int),
      (l.foldl (fun acc c => if f c > acc.2 then (c, f c) else acc)
        acc).1 = acc.1 ∨
      (l.foldl (fun acc c => if f c > acc.2 then (c, f c) else acc)
        acc).1 ∈ l := by
  intro l
  induction l with
  | nil => intro acc; exact Or.inl rfl
  | cons a l ih =>
    intro acc
    rw [List.foldl_cons]
    by_cases h : f a > acc.2
    · rw [if_pos h]
      rcases ih (a, f a) with h' | h'
      · exact Or.inr (h' ▸ List.mem_cons_self _ _)
      · exact Or.inr (List.mem_cons_of_mem _ h')
    · rw [if_neg h]
      rcases ih acc with h' | h'
      · exact Or.inl h'
      · exact Or.inr (List.mem_cons_of_mem _ h')

theorem best_corner_le_one (q : QuadrantPosition) (grid : Grid) :
    (best_corner_for_single q grid).1 ≤ 1 ∧
      (best_corner_for_single q grid).2 ≤ 1 := by
  have h := foldArgmax_mem (fun c : Nat × Nat => corner_score q grid c.1 c.2)
    cornerCandidates ((0, 0), -1)
  simp only [best_corner_for_single, cornerCandidates] at *
  rcases h with h | h
  · rw [h]; exact ⟨by decide, by decide⟩
  · simp only [List.mem_cons, List.not_mem_nil, or_false] at h
    rcases h with h | h | h | h <;> rw [h] <;> exact ⟨by decide, by decide⟩

theorem bestOfTwo_le_one (score : Nat → Int) : bestOfTwo score ≤ 1 := by
  have h := foldArgmax_mem score [0, 1] (0, -1)
  simp only [bestOfTwo] at *
  rcases h with h | h
  · rw [h]; decide
  · simp only [List.mem_cons, List.not_mem_nil, or_false] at h
    rcases h with h | h <;> rw [h] <;> decide

theorem layout4_lookup_some {ox oy x y : Int} (hx1 : ox ≤ x)
    (hx2 : x ≤ ox + 1) (hy1 : oy ≤ y) (hy2 : y ≤ oy + 1) :
    ∃ cell, assocLookup (layout4 ox oy) (x, y) = some cell := by
  have hx : x = ox ∨ x = ox + 1 := by omega
  have hy : y = oy ∨ y = oy + 1 := by omega
  unfold assocLookup layout4
  rcases hx with rfl | rfl <;> rcases hy with rfl | rfl
  · exact ⟨(0, 0), by rw [List.find?_cons_of_pos _ (by simp)]; rfl⟩
  · exact ⟨(0, 1), by
      rw [List.find?_cons_of_neg _ (by simp),
        List.find?_cons_of_pos _ (by simp)]; rfl⟩
  · exact ⟨(1, 0), by
      rw [List.find?_cons_of_neg _ (by simp),
        List.find?_cons_of_neg _ (by simp),
        List.find?_cons_of_pos _ (by simp)]; rfl⟩
  · exact ⟨(1, 1), by
      rw [List.find?_cons_of_neg _ (by simp),
        List.find?_cons_of_neg _ (by simp),
        List.find?_cons_of_neg _ (by simp),
        List.find?_cons_of_pos _ (by simp)]; rfl⟩

-- ── C6 ────────────────────────────────────────────────────────────────

/-- C6: composing a template for a 1×1 selection and then extracting the
selected quadrant's cell (with the layout the composer returned) from an
image of the template's resolution yields an image whose resolution is
the grid's standard tile resolution `TILE_SIZE` = 1024×1024, regardless
of the intermediate per-cell downscale. -/
theorem C6_roundtrip_resolution (q : QuadrantPosition) (grid : Grid)
    (render_lookup : (Int × Int) → Option Img) (tile_size : Nat)
    (result : Img) :
    ∃ tmpl layout,
      create_template_image [q] grid render_lookup tile_size =
        .ok (tmpl, layout) ∧
      (result.width = tmpl.width → result.height = tmpl.height →
        ∃ res img,
          extract_generated_quadrants result [q] layout = some res ∧
          assocLookup res q.key = some img ∧
          img.width = TILE_SIZE ∧ img.height = TILE_SIZE ∧
          TILE_SIZE = 1024) := by
  refine ⟨_, _, rfl, ?_⟩
  intro _ _
  have hb := best_corner_le_one q grid
  have hlay : compute_2x2_layout [q] grid =
      layout4 (q.x - ((best_corner_for_single q grid).1 : Int))
        (q.y - ((best_corner_for_single q grid).2 : Int)) := by
    simp only [compute_2x2_layout, List.map_nil, list_min, list_max,
      List.foldl_nil]
    rw [if_pos (⟨by omega, by omega⟩ :
      q.x - q.x + 1 = 1 ∧ q.y - q.y + 1 = 1)]
  obtain ⟨cell, hcell⟩ := layout4_lookup_some
    (show q.x - ((best_corner_for_single q grid).1 : Int) ≤ q.x by omega)
    (show q.x ≤ q.x - ((best_corner_for_single q grid).1 : Int) + 1 by
      omega)
    (show q.y - ((best_corner_for_single q grid).2 : Int) ≤ q.y by omega)
    (show q.y ≤ q.y - ((best_corner_for_single q grid).2 : Int) + 1 by
      omega)
  rw [hlay]
  refine ⟨[(q.key, (result.crop (cell.1 * CELL_SIZE) (cell.2 * CELL_SIZE)
      (cell.1 * CELL_SIZE + CELL_SIZE) (cell.2 * CELL_SIZE + CELL_SIZE)).resize
      TILE_SIZE TILE_SIZE)],
    (result.crop (cell.1 * CELL_SIZE) (cell.2 * CELL_SIZE)
      (cell.1 * CELL_SIZE + CELL_SIZE) (cell.2 * CELL_SIZE + CELL_SIZE)).resize
      TILE_SIZE TILE_SIZE, ?_, ?_, rfl, rfl, rfl⟩
  · simp only [extract_generated_quadrants, QuadrantPosition.key]
    rw [hcell]
  · simp only [assocLookup]
    rw [List.find?_cons_of_pos _ (by simp)]
    rfl

/-- C6 witness: concrete 1×1 round trip at resolution 1024. -/
theorem C6_roundtrip_resolution_witness :
    ∃ tmpl layout,
      create_template_image [{ x := 0, y := 0 }] [] (fun _ => none) 7 =
        .ok (tmpl, layout) ∧
      ∃ res img,
        extract_generated_quadrants tmpl [{ x := 0, y := 0 }] layout =
          some res ∧
        assocLookup res (QuadrantPosition.key { x := 0, y := 0 }) =
          some img ∧
        img.width = TILE_SIZE ∧ img.height = TILE_SIZE ∧
        TILE_SIZE = 1024 := by
  obtain ⟨tmpl, layout, h1, _⟩ := C6_roundtrip_resolution
    { x := 0, y := 0 } [] (fun _ => none) 7 (Img.fill 0 0 (0, 0, 0, 0))
  obtain ⟨tmpl2, layout2, h1', h2⟩ := C6_roundtrip_resolution
    { x := 0, y := 0 } [] (fun _ => none) 7 tmpl
  have heq := h1.symm.trans h1'
  simp only [Except.ok.injEq, Prod.mk.injEq] at heq
  obtain ⟨ht, hl⟩ := heq
  subst ht hl
  exact ⟨tmpl, layout, h1, h2 rfl rfl⟩

-- ── C10 ───────────────────────────────────────────────────────────────

theorem layout4_keys_nodup (ox oy : Int) :
    ((layout4 ox oy).map Prod.fst).Nodup := by
  simp [layout4, Prod.ext_iff]

theorem extract_ne_none (result : Img) :
    ∀ (sel : List QuadrantPosition) (layout : Layout),
      (∀ q ∈ sel, ∃ c, assocLookup layout q.key = some c) →
      extract_generated_quadrants result sel layout ≠ none := by
  intro sel
  induction sel with
  | nil => intro layout _; simp [extract_generated_quadrants]
  | cons q rest ih =>
    intro layout hall
    obtain ⟨c, hc⟩ := hall q (List.mem_cons_self _ _)
    simp only [extract_generated_quadrants]
    rw [hc]
    cases hrec : extract_generated_quadrants result rest layout with
    | none =>
      exact absurd hrec
        (ih layout (fun q' hq' => hall q' (List.mem_cons_of_mem _ hq')))
    | some res => simp

/-- Packaging of the C10 conclusion from a layout equation plus 2×2-block
bounds on every selected coordinate. -/
theorem layout_cover_pack (q0 : QuadrantPosition)
    (rest : List QuadrantPosition) (grid : Grid) {ox oy : Int}
    (hlay : compute_2x2_layout (q0 :: rest) grid = layout4 ox oy)
    (hbounds : ∀ q ∈ q0 :: rest,
      ox ≤ q.x ∧ q.x ≤ ox + 1 ∧ oy ≤ q.y ∧ q.y ≤ oy + 1) :
    ∃ ox' oy',
      compute_2x2_layout (q0 :: rest) grid = layout4 ox' oy' ∧
      ((layout4 ox' oy').map Prod.fst).Nodup ∧
      (layout4 ox' oy').map Prod.snd = [(0, 0), (0, 1), (1, 0), (1, 1)] ∧
      (∀ q ∈ q0 :: rest, q.key ∈ (layout4 ox' oy').map Prod.fst) ∧
      (∀ result : Img,
        extract_generated_quadrants result (q0 :: rest) (layout4 ox' oy') ≠
          none) := by
  refine ⟨ox, oy, hlay, layout4_keys_nodup ox oy, rfl, ?_, ?_⟩
  · intro q hq
    obtain ⟨h1, h2, h3, h4⟩ := hbounds q hq
    simp only [layout4, QuadrantPosition.key, List.map_cons, List.map_nil,
      List.mem_cons, List.not_mem_nil, or_false, Prod.ext_iff]
    omega
  · intro result
    apply extract_ne_none
    intro q hq
    obtain ⟨h1, h2, h3, h4⟩ := hbounds q hq
    exact layout4_lookup_some h1 h2 h3 h4

/-- C10: for every non-empty selection filling a rectangular bounding box
of width and height at most 2, `_compute_2x2_layout` maps a contiguous
2×2 block of world coordinates (containing every selected coordinate)
bijectively onto the four canvas cells, so extraction never fails to find
a selected quadrant's cell. -/
theorem C10_layout_covers_selection (grid : Grid) (q0 : QuadrantPosition)
    (rest : List QuadrantPosition) (min_x max_x min_y max_y w h : Int)
    (hmnx : min_x = list_min q0.x (rest.map (·.x)))
    (hmxx : max_x = list_max q0.x (rest.map (·.x)))
    (hmny : min_y = list_min q0.y (rest.map (·.y)))
    (hmxy : max_y = list_max q0.y (rest.map (·.y)))
    (hw : w = max_x - min_x + 1) (hh : h = max_y - min_y + 1)
    (hnd : ((q0 :: rest).map QuadrantPosition.key).Nodup)
    (hfill : ∀ p : Int × Int, min_x ≤ p.1 → p.1 ≤ max_x → min_y ≤ p.2 →
      p.2 ≤ max_y → p ∈ (q0 :: rest).map QuadrantPosition.key)
    (hw2 : w ≤ 2) (hh2 : h ≤ 2) :
    ∃ ox oy,
      compute_2x2_layout (q0 :: rest) grid = layout4 ox oy ∧
      ((layout4 ox oy).map Prod.fst).Nodup ∧
      (layout4 ox oy).map Prod.snd = [(0, 0), (0, 1), (1, 0), (1, 1)] ∧
      (∀ q ∈ q0 :: rest, q.key ∈ (layout4 ox oy).map Prod.fst) ∧
      (∀ result : Img,
        extract_generated_quadrants result (q0 :: rest) (layout4 ox oy) ≠
          none) := by
  subst hw hh hmnx hmxx hmny hmxy
  obtain ⟨ha1, ha2, ha3, ha4⟩ := sel_bounds q0 rest q0 (List.mem_cons_self _ _)
  have hxcase :
      list_max q0.x (rest.map (·.x)) - list_min q0.x (rest.map (·.x)) = 0 ∨
      list_max q0.x (rest.map (·.x)) - list_min q0.x (rest.map (·.x)) = 1 := by
    omega
  have hycase :
      list_max q0.y (rest.map (·.y)) - list_min q0.y (rest.map (·.y)) = 0 ∨
      list_max q0.y (rest.map (·.y)) - list_min q0.y (rest.map (·.y)) = 1 := by
    omega
  rcases hxcase with hx | hx <;> rcases hycase with hy | hy
  · -- 1×1
    have hlay : ∃ c : Nat × Nat, c.1 ≤ 1 ∧ c.2 ≤ 1 ∧
        compute_2x2_layout (q0 :: rest) grid =
          layout4 (q0.x - (c.1 : Int)) (q0.y - (c.2 : Int)) := by
      refine ⟨best_corner_for_single q0 grid,
        (best_corner_le_one q0 grid).1, (best_corner_le_one q0 grid).2, ?_⟩
      simp only [compute_2x2_layout]
      have hcond :
          list_max q0.x (rest.map (·.x)) - list_min q0.x (rest.map (·.x)) +
            1 = 1 ∧
          list_max q0.y (rest.map (·.y)) - list_min q0.y (rest.map (·.y)) +
            1 = 1 := ⟨by omega, by omega⟩
      rw [if_pos hcond]
    obtain ⟨c, hc1, hc2, hlay⟩ := hlay
    apply layout_cover_pack q0 rest grid hlay
    intro q hq
    obtain ⟨hb1, hb2, hb3, hb4⟩ := sel_bounds q0 rest q hq
    exact ⟨by omega, by omega, by omega, by omega⟩
  · -- 1×2 (tall)
    have hlay : ∃ bc : Nat, bc ≤ 1 ∧
        compute_2x2_layout (q0 :: rest) grid =
          layout4 (list_min q0.x (rest.map (·.x)) - (bc : Int))
            (list_min q0.y (rest.map (·.y))) := by
      refine ⟨bestOfTwo (pairPosScore grid (fun col d =>
          (list_min q0.x (rest.map (·.x)) - (col : Int) + ((1 - col : Nat) : Int),
            list_min q0.y (rest.map (·.y)) + (d : Int)))),
        bestOfTwo_le_one _, ?_⟩
      simp only [compute_2x2_layout]
      have hcond1 : ¬(list_max q0.x (rest.map (·.x)) -
            list_min q0.x (rest.map (·.x)) + 1 = 1 ∧
          list_max q0.y (rest.map (·.y)) -
            list_min q0.y (rest.map (·.y)) + 1 = 1) := by
        rintro ⟨_, hcy⟩; omega
      have hcond2 :
          list_max q0.x (rest.map (·.x)) - list_min q0.x (rest.map (·.x)) +
            1 = 1 ∧
          list_max q0.y (rest.map (·.y)) - list_min q0.y (rest.map (·.y)) +
            1 = 2 := ⟨by omega, by omega⟩
      rw [if_neg hcond1, if_pos hcond2]
    obtain ⟨bc, hbc, hlay⟩ := hlay
    apply layout_cover_pack q0 rest grid hlay
    intro q hq
    obtain ⟨hb1, hb2, hb3, hb4⟩ := sel_bounds q0 rest q hq
    exact ⟨by omega, by omega, by omega, by omega⟩
  · -- 2×1 (wide)
    have hlay : ∃ br : Nat, br ≤ 1 ∧
        compute_2x2_layout (q0 :: rest) grid =
          layout4 (list_min q0.x (rest.map (·.x)))
            (list_min q0.y (rest.map (·.y)) - (br : Int)) := by
      refine ⟨bestOfTwo (pairPosScore grid (fun row d =>
          (list_min q0.x (rest.map (·.x)) + (d : Int),
            list_min q0.y (rest.map (·.y)) - (row : Int) +
              ((1 - row : Nat) : Int)))),
        bestOfTwo_le_one _, ?_⟩
      simp only [compute_2x2_layout]
      have hcond1 : ¬(list_max q0.x (rest.map (·.x)) -
            list_min q0.x (rest.map (·.x)) + 1 = 1 ∧
          list_max q0.y (rest.map (·.y)) -
            list_min q0.y (rest.map (·.y)) + 1 = 1) := by
        rintro ⟨hcx, _⟩; omega
      have hcond2 : ¬(list_max q0.x (rest.map (·.x)) -
            list_min q0.x (rest.map (·.x)) + 1 = 1 ∧
          list_max q0.y (rest.map (·.y)) -
            list_min q0.y (rest.map (·.y)) + 1 = 2) := by
        rintro ⟨hcx, _⟩; omega
      have hcond3 :
          list_max q0.x (rest.map (·.x)) - list_min q0.x (rest.map (·.x)) +
            1 = 2 ∧
          list_max q0.y (rest.map (·.y)) - list_min q0.y (rest.map (·.y)) +
            1 = 1 := ⟨by omega, by omega⟩
      rw [if_neg hcond1, if_neg hcond2, if_pos hcond3]
    obtain ⟨br, hbr, hlay⟩ := hlay
    apply layout_cover_pack q0 rest grid hlay
    intro q hq
    obtain ⟨hb1, hb2, hb3, hb4⟩ := sel_bounds q0 rest q hq
    exact ⟨by omega, by omega, by omega, by omega⟩
  · -- 2×2
    have hlay : compute_2x2_layout (q0 :: rest) grid =
        layout4 (list_min q0.x (rest.map (·.x)))
          (list_min q0.y (rest.map (·.y))) := by
      simp only [compute_2x2_layout]
      have hcond1 : ¬(list_max q0.x (rest.map (·.x)) -
            list_min q0.x (rest.map (·.x)) + 1 = 1 ∧
          list_max q0.y (rest.map (·.y)) -
            list_min q0.y (rest.map (·.y)) + 1 = 1) := by
        rintro ⟨hcx, _⟩; omega
      have hcond2 : ¬(list_max q0.x (rest.map (·.x)) -
            list_min q0.x (rest.map (·.x)) + 1 = 1 ∧
          list_max q0.y (rest.map (·.y)) -
            list_min q0.y (rest.map (·.y)) + 1 = 2) := by
        rintro ⟨hcx, _⟩; omega
      have hcond3 : ¬(list_max q0.x (rest.map (·.x)) -
            list_min q0.x (rest.map (·.x)) + 1 = 2 ∧
          list_max q0.y (rest.map (·.y)) -
            list_min q0.y (rest.map (·.y)) + 1 = 1) := by
        rintro ⟨_, hcy⟩; omega
      have hcond4 :
          list_max q0.x (rest.map (·.x)) - list_min q0.x (rest.map (·.x)) +
            1 = 2 ∧
          list_max q0.y (rest.map (·.y)) - list_min q0.y (rest.map (·.y)) +
            1 = 2 := ⟨by omega, by omega⟩
      rw [if_neg hcond1, if_neg hcond2, if_neg hcond3, if_pos hcond4]
    apply layout_cover_pack q0 rest grid hlay
    intro q hq
    obtain ⟨hb1, hb2, hb3, hb4⟩ := sel_bounds q0 rest q hq
    exact ⟨by omega, by omega, by omega, by omega⟩

/-- C10 witness: concrete 1×2 selection {(0,0), (0,1)} on the empty grid. -/
theorem C10_layout_covers_selection_witness :
    ∃ ox oy,
      compute_2x2_layout [{ x := 0, y := 0 }, { x := 0, y := 1 }] [] =
        layout4 ox oy ∧
      ((layout4 ox oy).map Prod.fst).Nodup ∧
      (layout4 ox oy).map Prod.snd = [(0, 0), (0, 1), (1, 0), (1, 1)] ∧
      (∀ q ∈ [{ x := 0, y := 0 }, { x := 0, y := 1 }],
        QuadrantPosition.key q ∈ (layout4 ox oy).map Prod.fst) ∧
      (∀ result : Img,
        extract_generated_quadrants result
          [{ x := 0, y := 0 }, { x := 0, y := 1 }] (layout4 ox oy) ≠
          none) :=
  C10_layout_covers_selection [] { x := 0, y := 0 } [{ x := 0, y := 1 }]
    0 0 0 1 1 2 (by decide) (by decide) (by decide) (by decide)
    (by decide) (by decide) (by decide)
    (by
      intro p h1 h2 h3 h4
      simp only [List.map_cons, List.map_nil, QuadrantPosition.key,
        List.mem_cons, List.not_mem_nil, or_false, Prod.ext_iff]
      omega)
    (by decide) (by decide)

-- ── C8 ────────────────────────────────────────────────────────────────

theorem chunksOf4_spec {α : Type} :
    ∀ (n : Nat) (l : List α), l.length ≤ n →
      ∀ c ∈ chunksOf4 l, c ≠ [] ∧ c.length ≤ 4 := by
  intro n
  induction n with
  | zero =>
    intro l hl c hc
    cases l with
    | nil => simp [chunksOf4] at hc
    | cons a rest => simp at hl
  | succ n ih =>
    intro l hl c hc
    cases l with
    | nil => simp [chunksOf4] at hc
    | cons a rest =>
      rw [show chunksOf4 (a :: rest) =
        (a :: rest.take 3) :: chunksOf4 (rest.drop 3) from by
          simp [chunksOf4]] at hc
      rcases List.mem_cons.mp hc with rfl | hc'
      · refine ⟨by simp, ?_⟩
        simp only [List.length_cons, List.length_take]
        omega
      · refine ih (rest.drop 3) ?_ c hc'
        simp only [List.length_drop]
        simp only [List.length_cons] at hl
        omega

theorem chunksOf4_mem_spec {α : Type} (l : List α) :
    ∀ c ∈ chunksOf4 l, c ≠ [] ∧ c.length ≤ 4 :=
  chunksOf4_spec l.length l le_rfl

theorem strip_flatMap_depth_le {dep : Prop} [Decidable dep] (hdep : dep)
    (f : Int → List (Int × Int)) (g : Int → List PlanStep) :
    ∀ l : List Int,
      (l.flatMap fun x => if f x = [] then [] else if dep then
          [{ quadrants := f x, status := .pending }] else g x) =
        l.filterMap fun x => if f x = [] then none else
          some { quadrants := f x, status := .pending } := by
  intro l
  induction l with
  | nil => rfl
  | cons a l ih =>
    simp only [List.flatMap_cons, List.filterMap_cons]
    by_cases ha : f a = []
    · simp [ha, ih]
    · simp only [if_neg ha]
      rw [if_pos hdep]
      simp [ha, ih]

theorem strip_flatMap_depth_gt {dep : Prop} [Decidable dep] (hdep : ¬dep)
    (f : Int → List (Int × Int)) :
    ∀ l : List Int,
      (l.flatMap fun x => if f x = [] then [] else if dep then
          [{ quadrants := f x, status := .pending }] else
          (chunksOf4 (f x)).map
            (fun c => ({ quadrants := c, status := .pending } : PlanStep))) =
        l.flatMap fun x => (chunksOf4 (f x)).map
          (fun c => ({ quadrants := c, status := .pending } : PlanStep)) := by
  intro l
  induction l with
  | nil => rfl
  | cons a l ih =>
    simp only [List.flatMap_cons]
    by_cases ha : f a = []
    · rw [if_pos ha, ha]
      rw [show chunksOf4 ([] : List (Int × Int)) = [] from by
        simp [chunksOf4]]
      simp [ih]
    · rw [if_neg ha, if_neg hdep, ih]

/-- C8: the strip planner emits, per column scanned left to right, the
column's not-yet-GENERATED coordinates as one batch when the region's row
depth is at most 3, and otherwise as consecutive chunks of at most 4; in
particular a 1-row-deep, 5-column region with nothing generated yields
exactly 5 single-quadrant steps. -/
theorem C8_strip_plan_batching
    (grid_states : (Int × Int) → QuadrantState) (tl br : Int × Int) :
    ((max tl.2 br.2 - min tl.2 br.2 + 1 ≤ 3 →
      (make_strip_plan grid_states tl br).steps =
        (intRange (min tl.1 br.1) (max tl.1 br.1 + 1)).filterMap (fun x =>
          if column_not_generated grid_states (min tl.2 br.2)
              (max tl.2 br.2) x = [] then none
          else some { quadrants := (column_not_generated grid_states
              (min tl.2 br.2) (max tl.2 br.2) x), status := .pending })) ∧
     (¬(max tl.2 br.2 - min tl.2 br.2 + 1 ≤ 3) →
      (make_strip_plan grid_states tl br).steps =
        (intRange (min tl.1 br.1) (max tl.1 br.1 + 1)).flatMap (fun x =>
          (chunksOf4 (column_not_generated grid_states (min tl.2 br.2)
            (max tl.2 br.2) x)).map
              (fun c => { quadrants := c, status := .pending })) ∧
      (∀ s ∈ (make_strip_plan grid_states tl br).steps,
        s.quadrants ≠ [] ∧ s.quadrants.length ≤ 4))) ∧
    ((make_strip_plan (fun _ => QuadrantState.EMPTY)
        ((0 : Int), (0 : Int)) ((4 : Int), (0 : Int))).steps.map
          PlanStep.quadrants =
        [[(0, 0)], [(1, 0)], [(2, 0)], [(3, 0)], [(4, 0)]] ∧
      (make_strip_plan (fun _ => QuadrantState.EMPTY)
        ((0 : Int), (0 : Int)) ((4 : Int), (0 : Int))).total_steps = 5) := by
  refine ⟨⟨?_, ?_⟩, by decide, by decide⟩
  · intro hdep
    simp only [make_strip_plan]
    exact strip_flatMap_depth_le hdep
      (column_not_generated grid_states (min tl.2 br.2) (max tl.2 br.2))
      (fun x => (chunksOf4 (column_not_generated grid_states (min tl.2 br.2)
        (max tl.2 br.2) x)).map
          (fun c => { quadrants := c, status := .pending }))
      (intRange (min tl.1 br.1) (max tl.1 br.1 + 1))
  · intro hdep
    have hsteps : (make_strip_plan grid_states tl br).steps =
        (intRange (min tl.1 br.1) (max tl.1 br.1 + 1)).flatMap (fun x =>
          (chunksOf4 (column_not_generated grid_states (min tl.2 br.2)
            (max tl.2 br.2) x)).map
              (fun c => { quadrants := c, status := .pending })) := by
      simp only [make_strip_plan]
      exact strip_flatMap_depth_gt hdep
        (column_not_generated grid_states (min tl.2 br.2) (max tl.2 br.2))
        (intRange (min tl.1 br.1) (max tl.1 br.1 + 1))
    refine ⟨hsteps, ?_⟩
    intro s hs
    rw [hsteps] at hs
    obtain ⟨x, _, hsm⟩ := List.mem_flatMap.mp hs
    obtain ⟨c, hcm, rfl⟩ := List.mem_map.mp hsm
    obtain ⟨hc1, hc2⟩ := chunksOf4_mem_spec _ c hcm
    exact ⟨hc1, hc2⟩

/-- C8 witness: the depth-≤-3 branch applied to the concrete 5×1 region. -/
theorem C8_strip_plan_batching_witness :
    (make_strip_plan (fun _ => QuadrantState.EMPTY)
        ((0 : Int), (0 : Int)) ((4 : Int), (0 : Int))).steps =
      (intRange (min (0 : Int) 4) (max (0 : Int) 4 + 1)).filterMap (fun x =>
        if column_not_generated (fun _ => QuadrantState.EMPTY)
            (min (0 : Int) 0) (max (0 : Int) 0) x = [] then none
        else some { quadrants := (column_not_generated
            (fun _ => QuadrantState.EMPTY) (min (0 : Int) 0)
            (max (0 : Int) 0) x), status := .pending }) :=
  (C8_strip_plan_batching (fun _ => QuadrantState.EMPTY)
    ((0 : Int), (0 : Int)) ((4 : Int), (0 : Int))).1.1 (by decide)

-- ── C3 ────────────────────────────────────────────────────────────────

/-- C3 counterexample: in the plan-file runner, a plan whose first step
fails is marked error, yet the second step is still executed (its status
becomes `done` instead of staying `pending`), refuting the claimed
fail-fast behaviour. -/
theorem C3_counterexample_continues_after_error :
    ¬ halts_after_error failExec demoPlanSteps ∧
    (run_from_plan failExec demoPlanSteps).map PlanStep.status =
      [.error, .done] := by
  constructor
  · unfold halts_after_error
    decide
  · decide

/-- C3 amended: when executing a pending step raises an exception, the
plan-file runner (`_run_from_plan`) marks that step `error` with the
error text retained but continues executing every remaining pending step;
the spiral runner (`auto_generate.main`) instead halts right after the
first failing batch. -/
theorem C3_amended_error_handling :
    (∀ (exec : List (Int × Int) → Except String Unit)
      (steps : List PlanStep) (i : Nat) (s : PlanStep) (e : String),
      steps[i]? = some s → s.status = .pending →
      exec s.quadrants = .error e →
      (run_from_plan exec steps)[i]? =
        some { s with status := .error, errorText := some e }) ∧
    (∀ (exec : List (Int × Int) → Except String Unit)
      (steps : List PlanStep) (j : Nat) (t : PlanStep),
      steps[j]? = some t → t.status = .pending →
      (run_from_plan exec steps)[j]? =
        some (match exec t.quadrants with
          | .ok _ => { t with status := .done }
          | .error e2 =>
            { t with status := .error, errorText := some e2 })) ∧
    (∀ (exec : List (Int × Int) → Except String Unit)
      (batches : List (List (Int × Int))) (i : Nat)
      (b : List (Int × Int)) (e : String),
      batches[i]? = some b →
      (∀ (k : Nat) (bk : List (Int × Int)), k < i →
        batches[k]? = some bk → exec bk = .ok ()) →
      exec b = .error e →
      auto_run exec batches =
        (batches.take i).map (fun s => (s, exec s)) ++ [(b, .error e)]) := by
  have hrun : ∀ (exec : List (Int × Int) → Except String Unit)
      (steps : List PlanStep) (j : Nat) (t : PlanStep),
      steps[j]? = some t → t.status = .pending →
      (run_from_plan exec steps)[j]? =
        some (match exec t.quadrants with
          | .ok _ => { t with status := .done }
          | .error e2 =>
            { t with status := .error, errorText := some e2 }) := by
    intro exec steps j t hj ht
    unfold run_from_plan
    rw [List.getElem?_map, hj]
    simp only [Option.map_some']
    rw [ht]
  refine ⟨?_, hrun, ?_⟩
  · intro exec steps i s e hi hs herr
    rw [hrun exec steps i s hi hs, herr]
  · intro exec batches
    induction batches with
    | nil => intro i b e hb; simp at hb
    | cons s rest ih =>
      intro i b e hb hok herr
      cases i with
      | zero =>
        simp only [List.getElem?_cons_zero, Option.some.injEq] at hb
        subst hb
        simp only [auto_run, List.take_zero, List.map_nil,
          List.nil_append]
        rw [herr]
      | succ i =>
        have h0 : exec s = .ok () := hok 0 s (Nat.succ_pos _) (by simp)
        simp only [List.getElem?_cons_succ] at hb
        simp only [auto_run]
        rw [h0]
        rw [ih i b e hb
          (fun k bk hk hbk =>
            hok (k + 1) bk (Nat.succ_lt_succ hk) (by simpa using hbk))
          herr]
        simp [h0]

/-- C3 amended witness: the failing first step is marked error with its
text retained by the plan-file runner, and the spiral runner's trace
stops at the failing first batch. -/
theorem C3_amended_error_handling_witness :
    (run_from_plan failExec demoPlanSteps)[0]? =
      some { quadrants := [(0, 0)], status := StepStatus.error,
             errorText := some "boom" } ∧
    auto_run failExec [[(0, 0)], [(1, 0)]] =
      [([(0, 0)], .error "boom")] := by
  constructor
  · exact C3_amended_error_handling.1 failExec demoPlanSteps 0
      { quadrants := [(0, 0)], status := .pending } "boom"
      (by decide) (by decide) rfl
  · exact C3_amended_error_handling.2.2 failExec [[(0, 0)], [(1, 0)]] 0
      [(0, 0)] "boom" (by decide)
      (fun k bk hk _ => absurd hk (Nat.not_lt_zero k)) rfl

-- ── C2 ────────────────────────────────────────────────────────────────

/-- Everything `spiral_order` collects at radius `r` lies at Chebyshev
distance exactly `r` from the (floor-midpoint) center. -/
theorem spiralRingAt_cheb (coords assigned : List (Int × Int))
    (cx cy : Int) (r : Nat) :
    ∀ c ∈ spiralRingAt coords assigned cx cy r, chebFrom cx cy c = r := by
  intro c hc
  by_cases h0 : r = 0
  · subst h0
    by_cases hmem : (cx, cy) ∈ coords
    · simp only [spiralRingAt, if_pos rfl, if_pos hmem] at hc
      rcases List.mem_singleton.mp hc with rfl
      simp [chebFrom]
    · simp only [spiralRingAt, if_pos rfl, if_neg hmem] at hc
      simp at hc
  · simp only [spiralRingAt, if_neg h0] at hc
    rcases List.mem_append.mp hc with h123 | h4
    · rcases List.mem_append.mp h123 with h12 | h3
      · rcases List.mem_append.mp h12 with h1 | h2
        · obtain ⟨x, hx, hk⟩ := List.mem_filterMap.mp h1
          rw [mem_intRange] at hx
          split at hk
          · injection hk with hk2
            subst hk2
            unfold chebFrom
            dsimp only
            omega
          · exact absurd hk (by simp)
        · obtain ⟨y, hy, hk⟩ := List.mem_filterMap.mp h2
          rw [mem_intRange] at hy
          split at hk
          · injection hk with hk2
            subst hk2
            unfold chebFrom
            dsimp only
            omega
          · exact absurd hk (by simp)
      · obtain ⟨x, hx, hk⟩ := List.mem_filterMap.mp h3
        rw [mem_intRangeDesc] at hx
        split at hk
        · injection hk with hk2
          subst hk2
          unfold chebFrom
          dsimp only
          omega
        · exact absurd hk (by simp)
    · obtain ⟨y, hy, hk⟩ := List.mem_filterMap.mp h4
      rw [mem_intRangeDesc] at hy
      split at hk
      · injection hk with hk2
        subst hk2
        unfold chebFrom
        dsimp only
        omega
      · exact absurd hk (by simp)

/-- Invariant of the ring-collecting fold of `spiral_order`: provided
every ring collected at radius `r` sits at distance exactly `r`, the
emitted rings are cross-ring monotone in distance, and each emitted ring
is at one fixed distance below the scanned bound. -/
theorem rings_fold_inv (cheb : (Int × Int) → Nat)
    (ringF : List (Int × Int) → Nat → List (Int × Int))
    (hring : ∀ assigned r, ∀ c ∈ ringF assigned r, cheb c = r) :
    ∀ N : Nat,
      List.Pairwise (fun l1 l2 => ∀ a ∈ l1, ∀ b ∈ l2, cheb a ≤ cheb b)
        ((List.range N).foldl (fun acc r =>
          let ring := ringF acc.2 r
          if ring = [] then acc else (acc.1 ++ [ring], acc.2 ++ ring))
          (([], []) : List (List (Int × Int)) × List (Int × Int))).1 ∧
      ∀ l ∈ ((List.range N).foldl (fun acc r =>
          let ring := ringF acc.2 r
          if ring = [] then acc else (acc.1 ++ [ring], acc.2 ++ ring))
          (([], []) : List (List (Int × Int)) × List (Int × Int))).1,
        ∃ rr, rr < N ∧ ∀ c ∈ l, cheb c = rr := by
  intro N
  induction N with
  | zero => exact ⟨List.Pairwise.nil, by simp⟩
  | succ n ih =>
    rw [List.range_succ, List.foldl_append, List.foldl_cons,
      List.foldl_nil]
    obtain ⟨ih1, ih2⟩ := ih
    generalize hacc : (List.range n).foldl (fun acc r =>
        let ring := ringF acc.2 r
        if ring = [] then acc else (acc.1 ++ [ring], acc.2 ++ ring))
        (([], []) : List (List (Int × Int)) × List (Int × Int)) = acc0
      at ih1 ih2 ⊢
    dsimp only
    by_cases hr : ringF acc0.2 n = []
    · rw [if_pos hr]
      exact ⟨ih1, fun l hl => (ih2 l hl).imp
        (fun rr h => ⟨Nat.lt_succ_of_lt h.1, h.2⟩)⟩
    · rw [if_neg hr]
      constructor
      · dsimp only
        rw [List.pairwise_append]
        refine ⟨ih1, by simp, ?_⟩
        intro l1 hl1 l2 hl2
        rcases List.mem_singleton.mp hl2 with rfl
        intro a ha b hb
        obtain ⟨rr, hrr, hca⟩ := ih2 l1 hl1
        rw [hca a ha, hring acc0.2 n b hb]
        omega
      · intro l hl
        dsimp only at hl
        rcases List.mem_append.mp hl with hl | hl
        · obtain ⟨rr, hrr, hc⟩ := ih2 l hl
          exact ⟨rr, by omega, hc⟩
        · rcases List.mem_singleton.mp hl with rfl
          exact ⟨n, by omega, hring acc0.2 n⟩

/-- `spiral_order` emits coordinates with non-decreasing Chebyshev
distance from its floor-midpoint center. -/
theorem spiral_order_ring_monotone (c0 : Int × Int)
    (rest : List (Int × Int)) (cx cy : Int)
    (hcx : cx = (list_min c0.1 (rest.map (·.1)) +
      list_max c0.1 (rest.map (·.1))).fdiv 2)
    (hcy : cy = (list_min c0.2 (rest.map (·.2)) +
      list_max c0.2 (rest.map (·.2))).fdiv 2) :
    List.Pairwise (fun a b => chebFrom cx cy a ≤ chebFrom cx cy b)
      (spiral_order (c0 :: rest)).flatten := by
  simp only [spiral_order]
  simp only [← hcx, ← hcy]
  have H := rings_fold_inv (chebFrom cx cy)
    (fun assigned r => spiralRingAt (c0 :: rest) assigned cx cy r)
    (fun assigned r => spiralRingAt_cheb (c0 :: rest) assigned cx cy r)
    ((max (list_max c0.1 (rest.map (·.1)) - list_min c0.1 (rest.map (·.1)))
      (list_max c0.2 (rest.map (·.2)) - list_min c0.2 (rest.map (·.2))) +
        1).toNat + 1)
  refine List.pairwise_flatten.mpr ⟨?_, ?_⟩
  · intro l hl
    obtain ⟨rr, _, hc⟩ := H.2 l hl
    apply List.pairwise_of_forall_mem_list
    intro a ha b hb
    rw [hc a ha, hc b hb]
  · exact H.1

/-- C2 amended: ring index is non-decreasing for both spiral planners
(with respect to each planner's own center: the exact half-integer grid
center for batch_generate's `_spiral_order`, the floor midpoint
`(min+max)//2` for auto_generate's `spiral_order`); and within a fixed
ring, `_spiral_order` orders all cardinal-aligned coordinates (diagonal
flag 0) before diagonal ones (flag 1), while `spiral_order` walks each
ring's perimeter and gives no such guarantee. -/
theorem C2_amended_spiral_invariants :
    (∀ rows cols : Nat, List.Pairwise (fun a b =>
        ring2 rows cols a ≤ ring2 rows cols b ∧
        (ring2 rows cols a = ring2 rows cols b →
          isDiagonal2 rows cols a ≤ isDiagonal2 rows cols b))
      (spiral_order_grid rows cols)) ∧
    (∀ (c0 : Int × Int) (rest : List (Int × Int)),
      List.Pairwise (fun a b =>
        chebFrom ((list_min c0.1 (rest.map (·.1)) +
            list_max c0.1 (rest.map (·.1))).fdiv 2)
          ((list_min c0.2 (rest.map (·.2)) +
            list_max c0.2 (rest.map (·.2))).fdiv 2) a ≤
        chebFrom ((list_min c0.1 (rest.map (·.1)) +
            list_max c0.1 (rest.map (·.1))).fdiv 2)
          ((list_min c0.2 (rest.map (·.2)) +
            list_max c0.2 (rest.map (·.2))).fdiv 2) b)
      (spiral_order (c0 :: rest)).flatten) := by
  constructor
  · intro rows cols
    refine List.Pairwise.imp ?_
      (List.sorted_insertionSort (spiralSortLe rows cols) _)
    intro a b hab
    unfold spiralSortLe at hab
    refine ⟨by omega, fun h => by omega⟩
  · intro c0 rest
    exact spiral_order_ring_monotone c0 rest _ _ rfl rfl

/-- C2 counterexample: on the 3×3 coordinate block centred at (1,1),
`spiral_order` emits the diagonal corner (0,0) before the cardinal
coordinate (1,0) of the same ring, refuting the claimed
cardinal-before-diagonal order; and on the 4×4 block, whose exact
bounding-box center (1.5, 1.5) differs from the floor midpoint (1, 1),
it emits (0,0) (exact-center ring 1.5) before (2,1) (ring 0.5), so even
the ring-monotonicity half fails for the exact center. -/
theorem C2_counterexample_diagonal_first :
    ¬ spiralClaimHolds
      [(0, 0), (1, 0), (2, 0), (0, 1), (1, 1), (2, 1),
       (0, 2), (1, 2), (2, 2)] ∧
    ¬ spiralClaimRingHolds
      [(0, 0), (1, 0), (2, 0), (3, 0), (0, 1), (1, 1), (2, 1), (3, 1),
       (0, 2), (1, 2), (2, 2), (3, 2), (0, 3), (1, 3), (2, 3), (3, 3)] := by
  constructor
  · unfold spiralClaimHolds
    decide
  · unfold spiralClaimRingHolds
    decide

/-- C2 amended witness: the `_spiral_order` invariant at the concrete
2×2 grid. -/
theorem C2_amended_spiral_invariants_witness :
    List.Pairwise (fun a b =>
        ring2 2 2 a ≤ ring2 2 2 b ∧
        (ring2 2 2 a = ring2 2 2 b →
          isDiagonal2 2 2 a ≤ isDiagonal2 2 2 b))
      (spiral_order_grid 2 2) :=
  C2_amended_spiral_invariants.1 2 2

/-- C7 witness: the tie-break conclusion applied at the empty grid,
where all four corners score 0 and the first corner (0,0) is kept. -/
theorem C7_best_corner_argmax_witness :
    (0, 1) ∈ cornerCandidates ∧
    cornerIdx (best_corner_for_single { x := 0, y := 0 } []) ≤
      cornerIdx (0, 1) := by
  refine ⟨by decide, ?_⟩
  exact (C7_best_corner_argmax { x := 0, y := 0 } []).2.2 (0, 1)
    (by decide) (by decide)
